import Mathlib

/-!
Verification of the max1726x battery fuel-gauge driver (Rust crate
`max1726x-rs`).  The development shallowly embeds:

* the register catalog and bitfield layouts of `src/registers.rs` and
  `src/max17263/registers.rs` (each `modular_bitfield` type is a raw
  16-bit word with mask/shift accessors; the `defmt::bitflags` types
  `Status` and `FStat` are embedded through `from_bits_truncate`);
* the register access layer and the `ez_config` initialization state
  machine of `src/comms.rs`.  The I2C transport is modelled by a script:
  a list of per-transaction outcomes (`Resp.ok v` = transaction accepted,
  with `v` the word returned on a read; `Resp.err` = transport failure).
  Every register transaction the driver issues is recorded in a trace
  (`Tx`), including the `delay_ms` calls, so ordering claims become
  statements about the trace of a run;
* the unit conversions of `Max17263RegisterResolver`, with `f64`
  idealized as `ℚ`: every number appearing in the conversions
  (5.0e-6, 78.125e-6, 1.5625e-6, 1/256, 1/4096, 5.625) is a dyadic or
  decimal rational, `libm::round` is round-half-away-from-zero, and the
  Rust `as u16` / `as i16` casts saturate (they never wrap), which is
  exactly what `satU16` / `satI16` encode.
-/

/-- A 16-bit register transaction issued on the bus, or a delay, as observed
in a run of the driver.  `rd a v` is a successful read of word `v` at
register address `a`; `wr a v` a successful write; `rdE`/`wrE` are
transactions the transport rejected; `delay n` records `delay_ms(n)`. -/
inductive Tx where
  | rd (addr val : Nat)
  | rdE (addr : Nat)
  | wr (addr val : Nat)
  | wrE (addr val : Nat)
  | delay (ms : Nat)
deriving DecidableEq, Repr

/-- One scripted transport outcome: `ok v` means the transaction is accepted
(`v` is the 16-bit word the device returns if the transaction is a read,
and is ignored for a write); `err` means the transport fails. -/
inductive Resp where
  | ok (v : Nat)
  | err
deriving DecidableEq, Repr

/-- The driver error type (`src/error.rs::Error`), with an extra
`scriptEnd` outcome marking that the finite transport script ran out
(a real device always answers, so claims are about runs that do not
end in `scriptEnd`). -/
inductive DErr where
  | i2c
  | writeNotVerified (register write read : Nat)
  | scriptEnd
deriving DecidableEq, Repr

/- Register addresses of `src/registers.rs::Register`. -/
namespace Register

def STATUS : Nat := 0x00
def F_STAT : Nat := 0x3D
def HIB_CFG : Nat := 0xBA
def SOFT_WAKEUP : Nat := 0x60
def DESIGN_CAP : Nat := 0x18
def I_CHG_TERM : Nat := 0x1E
def V_EMPTY : Nat := 0x3A
def MODEL_CFG : Nat := 0xDB
def R_CELL : Nat := 0x14
def V_FOCV : Nat := 0xFB
def TTF : Nat := 0x20
def TTE : Nat := 0x11

end Register

/- Register addresses of `src/registers.rs::OutputRegister`. -/
namespace OutputRegister

def REP_CAP : Nat := 0x05
def REP_SOC : Nat := 0x06
def TTE : Nat := 0x11

end OutputRegister

/- Command words of `src/registers.rs::SoftWakeup`. -/
namespace SoftWakeup

def CLEAR : Nat := 0
def SOFT_WAKEUP : Nat := 0x0090

end SoftWakeup

/- The `defmt::bitflags! Status` register flags (`src/registers.rs`).
The decoded value of a flags type is its bit set, so we represent it by
the `Nat` of its bits; `from_bits_truncate` keeps only defined flag bits. -/
namespace Status

def POR : Nat := 1 <<< 1
def IMN : Nat := 1 <<< 2
def BST : Nat := 1 <<< 3
def IMX : Nat := 1 <<< 6
def D_SOC_I : Nat := 1 <<< 7
def VMN : Nat := 1 <<< 8
def TMN : Nat := 1 <<< 9
def SMN : Nat := 1 <<< 10
def BI : Nat := 1 <<< 11
def VMX : Nat := 1 <<< 12
def TMX : Nat := 1 <<< 13
def SMX : Nat := 1 <<< 14
def BR : Nat := 1 <<< 15

/-- The union of all defined `Status` flag bits (what `Status::all()` is). -/
def allBits : Nat :=
  POR ||| IMN ||| BST ||| IMX ||| D_SOC_I ||| VMN ||| TMN ||| SMN |||
  BI ||| VMX ||| TMX ||| SMX ||| BR

/-- `Status::from_bits_truncate(w).bits()`: decoding a raw word into the
flags type keeps only defined bits; re-encoding returns the kept bits. -/
def fromBitsTruncate (w : Nat) : Nat := w &&& allBits

end Status

/- The `defmt::bitflags! FStat` register flags (`src/registers.rs`). -/
namespace FStat

def DNR : Nat := 1
def REL_DT2 : Nat := 1 <<< 6
def FQ : Nat := 1 <<< 7
def E_DET : Nat := 1 <<< 8
def REL_DT : Nat := 1 <<< 9

/-- The union of all defined `FStat` flag bits. -/
def allBits : Nat := DNR ||| REL_DT2 ||| FQ ||| E_DET ||| REL_DT

/-- `FStat::from_bits_truncate(w).bits()`. -/
def fromBitsTruncate (w : Nat) : Nat := w &&& allBits

end FStat

/-- Extract `width` bits of `w` starting at bit `off` (a `modular_bitfield`
field getter). -/
def getBits (w off width : Nat) : Nat := (w >>> off) % (2 ^ width)

/-- `src/registers.rs::HibCfg` — a `#[bitfield(bits = 16)]` type.  The
stored state is the raw 16-bit word; `from_bytes`/`into_bytes` (and the
derived `From<u16>`/`Into<u16>`) transport it unchanged, skipped bits
included. -/
structure HibCfg where
  raw : Nat
deriving DecidableEq, Repr

namespace HibCfg

def fromWord (w : Nat) : HibCfg := ⟨w % 65536⟩

def toWord (x : HibCfg) : Nat := x.raw

def hib_scalar (x : HibCfg) : Nat := getBits x.raw 0 3

def hib_exit_time (x : HibCfg) : Nat := getBits x.raw 3 2

def hib_threshold (x : HibCfg) : Nat := getBits x.raw 8 4

def hib_enter_time (x : HibCfg) : Nat := getBits x.raw 12 3

def en_hib (x : HibCfg) : Bool := x.raw.testBit 15

end HibCfg

/-- `src/registers.rs::ModelCfg` — a `#[bitfield(bits = 16)]` type. -/
structure ModelCfg where
  raw : Nat
deriving DecidableEq, Repr

namespace ModelCfg

def fromWord (w : Nat) : ModelCfg := ⟨w % 65536⟩

def toWord (x : ModelCfg) : Nat := x.raw

def model_id (x : ModelCfg) : Nat := getBits x.raw 4 4

def v_chg (x : ModelCfg) : Bool := x.raw.testBit 10

def r100 (x : ModelCfg) : Bool := x.raw.testBit 13

def refresh (x : ModelCfg) : Bool := x.raw.testBit 15

end ModelCfg

/-- `src/registers.rs::VEmpty` — a `#[bitfield(bits = 16)]` type with
`vr : B7` at bits 0–6 and `ve : B9` at bits 7–15. -/
structure VEmpty where
  raw : Nat
deriving DecidableEq, Repr

namespace VEmpty

def fromWord (w : Nat) : VEmpty := ⟨w % 65536⟩

def toWord (x : VEmpty) : Nat := x.raw

/-- `VEmpty::new()` — all bits zero. -/
def new : VEmpty := ⟨0⟩

def vr (x : VEmpty) : Nat := getBits x.raw 0 7

def ve (x : VEmpty) : Nat := getBits x.raw 7 9

/-- The `with_ve` setter generated by `modular_bitfield`: replaces the
9-bit `ve` field; panics (modelled as `none`) when the value does not fit
in 9 bits. -/
def withVe (x : VEmpty) (v : Nat) : Option VEmpty :=
  if v < 512 then some ⟨x.raw % 128 + 128 * v⟩ else none

/-- The `with_vr` setter: replaces the 7-bit `vr` field; panics (`none`)
when the value does not fit in 7 bits. -/
def withVr (x : VEmpty) (v : Nat) : Option VEmpty :=
  if v < 128 then some ⟨128 * (x.raw / 128) + v⟩ else none

/-- `VEmpty::init(empty_voltage_target_mv, recovery_voltage_mv)`:
`Self::new().with_ve(empty_voltage_target_mv / 10)
           .with_vr((recovery_voltage_mv / 40) as u8)`.
The Rust `as u8` cast wraps the quotient modulo 256; `none` models the
setter panics. -/
def init (empty_voltage_target_mv recovery_voltage_mv : Nat) : Option VEmpty :=
  (VEmpty.new.withVe (empty_voltage_target_mv / 10)).bind
    (fun x => x.withVr ((recovery_voltage_mv / 40) % 256))

def calc_empty_voltage_target_mv (x : VEmpty) : Nat := x.ve * 10

def calc_recovery_voltage_mv (x : VEmpty) : Nat := x.vr * 40

end VEmpty

/-- `src/registers.rs::StatusBitField` — the `#[bitfield]` variant of the
status register layout. -/
structure StatusBitField where
  raw : Nat
deriving DecidableEq, Repr

namespace StatusBitField

def fromWord (w : Nat) : StatusBitField := ⟨w % 65536⟩

def toWord (x : StatusBitField) : Nat := x.raw

def por (x : StatusBitField) : Bool := x.raw.testBit 1

def imn (x : StatusBitField) : Bool := x.raw.testBit 2

def bst (x : StatusBitField) : Bool := x.raw.testBit 3

def imx (x : StatusBitField) : Bool := x.raw.testBit 6

def d_soc_i (x : StatusBitField) : Bool := x.raw.testBit 7

def vmn (x : StatusBitField) : Bool := x.raw.testBit 8

def tmn (x : StatusBitField) : Bool := x.raw.testBit 9

def smn (x : StatusBitField) : Bool := x.raw.testBit 10

def bi (x : StatusBitField) : Bool := x.raw.testBit 11

def vmx (x : StatusBitField) : Bool := x.raw.testBit 12

def tmx (x : StatusBitField) : Bool := x.raw.testBit 13

def smx (x : StatusBitField) : Bool := x.raw.testBit 14

def br (x : StatusBitField) : Bool := x.raw.testBit 15

end StatusBitField

/-- `src/max17263/registers.rs::LedCfg1` — a `#[bitfield(bits = 16)]` type. -/
structure LedCfg1 where
  raw : Nat
deriving DecidableEq, Repr

namespace LedCfg1

def fromWord (w : Nat) : LedCfg1 := ⟨w % 65536⟩

def toWord (x : LedCfg1) : Nat := x.raw

def n_bars (x : LedCfg1) : Nat := getBits x.raw 0 4

def gr_en (x : LedCfg1) : Bool := x.raw.testBit 4

def l_chg (x : LedCfg1) : Bool := x.raw.testBit 5

def led_md (x : LedCfg1) : Nat := getBits x.raw 6 2

def ani_md (x : LedCfg1) : Nat := getBits x.raw 8 2

def ani_step (x : LedCfg1) : Nat := getBits x.raw 10 3

def led_timer (x : LedCfg1) : Nat := getBits x.raw 13 3

end LedCfg1

/-- `src/max17263/registers.rs::LedCfg2` — a `#[bitfield(bits = 16)]` type. -/
structure LedCfg2 where
  raw : Nat
deriving DecidableEq, Repr

namespace LedCfg2

def fromWord (w : Nat) : LedCfg2 := ⟨w % 65536⟩

def toWord (x : LedCfg2) : Nat := x.raw

def brightness (x : LedCfg2) : Nat := getBits x.raw 0 5

def f_blink (x : LedCfg2) : Bool := x.raw.testBit 5

def e_blink (x : LedCfg2) : Bool := x.raw.testBit 6

def g_blink (x : LedCfg2) : Bool := x.raw.testBit 7

def en_auto_led_cnt (x : LedCfg2) : Bool := x.raw.testBit 8

def vled (x : LedCfg2) : Nat := getBits x.raw 9 6

def dled (x : LedCfg2) : Bool := x.raw.testBit 15

end LedCfg2

/-- `src/max17263/registers.rs::LedCfg3` — a `#[bitfield(bits = 16)]` type. -/
structure LedCfg3 where
  raw : Nat
deriving DecidableEq, Repr

namespace LedCfg3

def fromWord (w : Nat) : LedCfg3 := ⟨w % 65536⟩

def toWord (x : LedCfg3) : Nat := x.raw

def cust_led_ctrl (x : LedCfg3) : Bool := x.raw.testBit 13

def dnc (x : LedCfg3) : Bool := x.raw.testBit 14

def full_spd (x : LedCfg3) : Bool := x.raw.testBit 15

end LedCfg3

/-!  The register access layer (`src/comms.rs`).  A driver run is a
function from the remaining transport script and the trace accumulated so
far to the remaining script, the extended trace, and the outcome. -/

/-- `Max1726x::read_register_as_u16`: one write-then-read transaction.
The device returns two bytes, so the value delivered to the driver is a
16-bit word (`% 65536`). -/
def rdReg (addr : Nat) (s : List Resp) (t : List Tx) :
    List Resp × List Tx × Except DErr Nat :=
  match s with
  | [] => ([], t, .error .scriptEnd)
  | .err :: rest => (rest, t ++ [.rdE addr], .error .i2c)
  | .ok v :: rest => (rest, t ++ [.rd addr (v % 65536)], .ok (v % 65536))

/-- `Max1726x::write_register`: one write transaction of a 16-bit word. -/
def wrReg (addr val : Nat) (s : List Resp) (t : List Tx) :
    List Resp × List Tx × Except DErr Unit :=
  match s with
  | [] => ([], t, .error .scriptEnd)
  | .err :: rest => (rest, t ++ [.wrE addr val], .error .i2c)
  | .ok _ :: rest => (rest, t ++ [.wr addr val], .ok ())

/-- A sequence of `write_register` calls, aborting at the first failure
(each `?` in the Rust source propagates the error immediately). -/
def wrSeq (ps : List (Nat × Nat)) (s : List Resp) (t : List Tx) :
    List Resp × List Tx × Except DErr Unit :=
  match ps with
  | [] => (s, t, .ok ())
  | (a, v) :: rest =>
    match wrReg a v s t with
    | (s1, t1, .error e) => (s1, t1, .error e)
    | (s1, t1, .ok _) => wrSeq rest s1 t1

/-- The loop body of `Max1726x::write_and_verify_register`: write the word,
delay 1 ms, read back, succeed on a match; on a mismatch retry while fuel
remains, otherwise fail with `WriteNotVerified` carrying the register, the
written word and the last word read.  `fuel` counts the retries still
allowed, so the Rust loop (`attempt > 3` aborts) is `fuel = 3`. -/
def writeVerifyAux (addr val : Nat) (fuel : Nat) (s : List Resp) (t : List Tx) :
    List Resp × List Tx × Except DErr Unit :=
  match wrReg addr val s t with
  | (s1, t1, .error e) => (s1, t1, .error e)
  | (s1, t1, .ok _) =>
    match rdReg addr s1 (t1 ++ [.delay 1]) with
    | (s2, t2, .error e) => (s2, t2, .error e)
    | (s2, t2, .ok rv) =>
      if val = rv then (s2, t2, .ok ())
      else
        match fuel with
        | 0 => (s2, t2, .error (.writeNotVerified addr val rv))
        | fuel' + 1 => writeVerifyAux addr val fuel' s2 t2

/-- `Max1726x::write_and_verify_register`: 1 initial attempt plus at most
3 retries. -/
def write_and_verify_register (addr val : Nat) (s : List Resp) (t : List Tx) :
    List Resp × List Tx × Except DErr Unit :=
  writeVerifyAux addr val 3 s t

/-- Step 1 of `ez_config`: `while !(self.fstat_register()? & FStat::DNR)
.is_empty() { delay.delay_ms(10); }` — poll the FStat register until the
DNR flag clears, with a 10 ms delay after each read that shows it set. -/
def pollFStatAux (s : List Resp) (t : List Tx) :
    List Resp × List Tx × Except DErr Unit :=
  match s with
  | [] => ([], t, .error .scriptEnd)
  | .err :: rest => (rest, t ++ [.rdE Register.F_STAT], .error .i2c)
  | .ok v :: rest =>
    if FStat.fromBitsTruncate (v % 65536) &&& FStat.DNR = 0 then
      (rest, t ++ [.rd Register.F_STAT (v % 65536)], .ok ())
    else
      pollFStatAux rest (t ++ [.rd Register.F_STAT (v % 65536), .delay 10])

/-- The `ModelCFG.Refresh` poll of `ez_config`:
`while self.read_register_as_bitfield::<ModelCfg>()?.refresh() {
delay.delay_ms(10); }`. -/
def pollModelCfgAux (s : List Resp) (t : List Tx) :
    List Resp × List Tx × Except DErr Unit :=
  match s with
  | [] => ([], t, .error .scriptEnd)
  | .err :: rest => (rest, t ++ [.rdE Register.MODEL_CFG], .error .i2c)
  | .ok v :: rest =>
    if (ModelCfg.fromWord (v % 65536)).refresh then
      pollModelCfgAux rest (t ++ [.rd Register.MODEL_CFG (v % 65536), .delay 10])
    else
      (rest, t ++ [.rd Register.MODEL_CFG (v % 65536)], .ok ())

/-- `src/comms.rs::EzConfig` — the configuration snapshot consumed by
`ez_config`.  All three scalar fields are `u16` in the source; `v_empty_mv`
is the `VEmpty` bitfield, written verbatim as its raw word. -/
structure EzConfig where
  charge_voltage_mv : Nat
  design_cap_mah : Nat
  i_chg_term_ma : Nat
  v_empty_mv : VEmpty

/-- The seven plain register writes of `ez_config` steps 2–2.1, in source
order: the three-step hibernate exit, the three configuration words, and
the ModelCFG constant chosen by the charge voltage. -/
def ezParamList (cfg : EzConfig) : List (Nat × Nat) :=
  [(Register.SOFT_WAKEUP, SoftWakeup.SOFT_WAKEUP),
   (Register.HIB_CFG, 0),
   (Register.SOFT_WAKEUP, SoftWakeup.CLEAR),
   (Register.DESIGN_CAP, cfg.design_cap_mah),
   (Register.I_CHG_TERM, cfg.i_chg_term_ma),
   (Register.V_EMPTY, cfg.v_empty_mv.raw),
   (Register.MODEL_CFG, if 4275 < cfg.charge_voltage_mv then 0x8400 else 0x8000)]

/-- Steps 1–2 of `ez_config` (executed only when POR was set): poll
FStat.DNR, save HibCfg, exit hibernate, write the EZ configuration, poll
ModelCFG.Refresh, restore the saved HibCfg word unchanged. -/
def ezPorBranch (cfg : EzConfig) (s : List Resp) (t : List Tx) :
    List Resp × List Tx × Except DErr Unit :=
  match pollFStatAux s t with
  | (s1, t1, .error e) => (s1, t1, .error e)
  | (s1, t1, .ok _) =>
    match rdReg Register.HIB_CFG s1 t1 with
    | (s2, t2, .error e) => (s2, t2, .error e)
    | (s2, t2, .ok hib) =>
      match wrSeq (ezParamList cfg) s2 t2 with
      | (s3, t3, .error e) => (s3, t3, .error e)
      | (s3, t3, .ok _) =>
        match pollModelCfgAux s3 t3 with
        | (s4, t4, .error e) => (s4, t4, .error e)
        | (s4, t4, .ok _) => wrReg Register.HIB_CFG hib s4 t4

/-- Step 3 of `ez_config`: read Status, write it back with the POR bit
masked off (`status & 0xFFFD`), then commit the same masked word through
`write_and_verify_register`. -/
def ezClearPor (s : List Resp) (t : List Tx) :
    List Resp × List Tx × Except DErr Unit :=
  match rdReg Register.STATUS s t with
  | (s1, t1, .error e) => (s1, t1, .error e)
  | (s1, t1, .ok st0) =>
    match wrReg Register.STATUS (st0 &&& 0xFFFD) s1 t1 with
    | (s2, t2, .error e) => (s2, t2, .error e)
    | (s2, t2, .ok _) =>
      write_and_verify_register Register.STATUS (st0 &&& 0xFFFD) s2 t2

/-- The final `battery_charge_status` read of `ez_config`: RepCap, RepSOC
and TTE, purely informational. -/
def ezFinal (s : List Resp) (t : List Tx) :
    List Resp × List Tx × Except DErr Unit :=
  match rdReg OutputRegister.REP_CAP s t with
  | (s1, t1, .error e) => (s1, t1, .error e)
  | (s1, t1, .ok _) =>
    match rdReg OutputRegister.REP_SOC s1 t1 with
    | (s2, t2, .error e) => (s2, t2, .error e)
    | (s2, t2, .ok _) =>
      match rdReg OutputRegister.TTE s2 t2 with
      | (s3, t3, .error e) => (s3, t3, .error e)
      | (s3, t3, .ok _) => (s3, t3, .ok ())

/-- `Max1726x::ez_config` (`src/comms.rs`): check POR via
`status_register()`; if set run steps 1–2, then in all cases clear POR
with a verified write and read the battery charge status. -/
def ez_config (cfg : EzConfig) (s : List Resp) (t : List Tx) :
    List Resp × List Tx × Except DErr Unit :=
  match rdReg Register.STATUS s t with
  | (s1, t1, .error e) => (s1, t1, .error e)
  | (s1, t1, .ok st0) =>
    match (if Status.fromBitsTruncate st0 &&& Status.POR = 0 then
             (s1, t1, Except.ok ())
           else ezPorBranch cfg s1 t1) with
    | (s2, t2, .error e) => (s2, t2, .error e)
    | (s2, t2, .ok _) =>
      match ezClearPor s2 t2 with
      | (s3, t3, .error e) => (s3, t3, .error e)
      | (s3, t3, .ok _) => ezFinal s3 t3

/-!  Trace-shape vocabulary used by the specifications below. -/

/-- The trace of a DNR poll: the reads that still showed DNR set (each
followed by the 10 ms delay) and the final read showing it clear. -/
def dnrPollTrace (vs : List Nat) (v : Nat) : List Tx :=
  vs.flatMap (fun u => [Tx.rd Register.F_STAT u, Tx.delay 10]) ++
    [Tx.rd Register.F_STAT v]

/-- The trace of a ModelCFG.Refresh poll. -/
def refreshPollTrace (vs : List Nat) (v : Nat) : List Tx :=
  vs.flatMap (fun u => [Tx.rd Register.MODEL_CFG u, Tx.delay 10]) ++
    [Tx.rd Register.MODEL_CFG v]

/-- The trace of a run of failed `write_and_verify_register` attempts:
each attempt is a write, the 1 ms delay, and a read-back (`b` the
mismatching word read). -/
def wvAttempts (addr val : Nat) (bads : List Nat) : List Tx :=
  bads.flatMap (fun b => [Tx.wr addr val, Tx.delay 1, Tx.rd addr b])

/-- A transport script driving `write_and_verify_register` through one
failed attempt per entry of `bads` (write accepted, read-back returns the
mismatching word). -/
def wvScriptAttempts (bads : List Nat) : List Resp :=
  bads.flatMap (fun b => [Resp.ok 0, Resp.ok b])

/-- The seven configuration writes of `ez_config` as trace entries. -/
def ezWrites (cfg : EzConfig) : List Tx :=
  (ezParamList cfg).map (fun p => Tx.wr p.1 p.2)

/-- Does a trace entry write (or attempt to write) register `a`? -/
def writesTo (a : Nat) : Tx → Bool
  | Tx.wr b _ => b == a
  | Tx.wrE b _ => b == a
  | _ => false

/-- The number of write transactions (accepted or rejected) in a trace. -/
def wrCount : List Tx → Nat
  | [] => 0
  | Tx.wr _ _ :: r => wrCount r + 1
  | Tx.wrE _ _ :: r => wrCount r + 1
  | Tx.rd _ _ :: r => wrCount r
  | Tx.rdE _ :: r => wrCount r
  | Tx.delay _ :: r => wrCount r

/-!  Shape lemmas: what the trace of a successful run of each driver
operation looks like. -/

theorem rdReg_ok {addr : Nat} {s : List Resp} {t : List Tx}
    {s' : List Resp} {t' : List Tx} {v : Nat}
    (h : rdReg addr s t = (s', t', .ok v)) :
    t' = t ++ [Tx.rd addr v] ∧ v < 65536 := by
  cases s with
  | nil => simp [rdReg] at h
  | cons r rest =>
    cases r with
    | err => simp [rdReg] at h
    | ok w =>
      simp only [rdReg, Prod.mk.injEq, Except.ok.injEq] at h
      obtain ⟨-, h2, h3⟩ := h
      subst h2; subst h3
      exact ⟨rfl, Nat.mod_lt _ (by norm_num)⟩

theorem wrReg_ok {addr val : Nat} {s : List Resp} {t : List Tx}
    {s' : List Resp} {t' : List Tx} {u : Unit}
    (h : wrReg addr val s t = (s', t', .ok u)) :
    t' = t ++ [Tx.wr addr val] := by
  cases s with
  | nil => simp [wrReg] at h
  | cons r rest =>
    cases r with
    | err => simp [wrReg] at h
    | ok w =>
      simp only [wrReg, Prod.mk.injEq] at h
      exact h.2.1.symm

theorem wrSeq_ok :
    ∀ (ps : List (Nat × Nat)) (s : List Resp) (t : List Tx)
      (s' : List Resp) (t' : List Tx),
    wrSeq ps s t = (s', t', .ok ()) →
    t' = t ++ ps.map (fun p => Tx.wr p.1 p.2) := by
  intro ps
  induction ps with
  | nil =>
    intro s t s' t' h
    simp only [wrSeq, Prod.mk.injEq] at h
    simp [h.2.1]
  | cons p rest ih =>
    intro s t s' t' h
    obtain ⟨a, v⟩ := p
    simp only [wrSeq] at h
    rcases hw : wrReg a v s t with ⟨s1, t1, r1⟩
    rw [hw] at h
    cases r1 with
    | error e => simp at h
    | ok u =>
      have h1 := wrReg_ok hw
      have h2 := ih s1 t1 s' t' h
      simp [h2, h1, List.append_assoc]

theorem pollFStatAux_ok :
    ∀ (s : List Resp) (t : List Tx) (s' : List Resp) (t' : List Tx),
    pollFStatAux s t = (s', t', .ok ()) →
    ∃ vs v, t' = t ++ dnrPollTrace vs v ∧
      (∀ u ∈ vs, ¬ FStat.fromBitsTruncate u &&& FStat.DNR = 0) ∧
      FStat.fromBitsTruncate v &&& FStat.DNR = 0 ∧ v < 65536 := by
  intro s
  induction s with
  | nil => intro t s' t' h; simp [pollFStatAux] at h
  | cons r rest ih =>
    intro t s' t' h
    cases r with
    | err => simp [pollFStatAux] at h
    | ok w =>
      by_cases hc : FStat.fromBitsTruncate (w % 65536) &&& FStat.DNR = 0
      · rw [pollFStatAux, if_pos hc] at h
        simp only [Prod.mk.injEq] at h
        refine ⟨[], w % 65536, ?_, by simp, hc, Nat.mod_lt _ (by norm_num)⟩
        simp [dnrPollTrace, h.2.1.symm]
      · rw [pollFStatAux, if_neg hc] at h
        obtain ⟨vs, v, hT, hAll, hLast, hv⟩ := ih _ _ _ h
        refine ⟨w % 65536 :: vs, v, ?_, ?_, hLast, hv⟩
        · simp [dnrPollTrace, hT, List.append_assoc]
        · intro u hu
          rcases List.mem_cons.mp hu with h1 | h1
          · exact h1 ▸ hc
          · exact hAll u h1

theorem pollModelCfgAux_ok :
    ∀ (s : List Resp) (t : List Tx) (s' : List Resp) (t' : List Tx),
    pollModelCfgAux s t = (s', t', .ok ()) →
    ∃ vs v, t' = t ++ refreshPollTrace vs v ∧
      (∀ u ∈ vs, (ModelCfg.fromWord u).refresh = true) ∧
      (ModelCfg.fromWord v).refresh = false ∧ v < 65536 := by
  intro s
  induction s with
  | nil => intro t s' t' h; simp [pollModelCfgAux] at h
  | cons r rest ih =>
    intro t s' t' h
    cases r with
    | err => simp [pollModelCfgAux] at h
    | ok w =>
      by_cases hc : (ModelCfg.fromWord (w % 65536)).refresh = true
      · rw [pollModelCfgAux, if_pos hc] at h
        obtain ⟨vs, v, hT, hAll, hLast, hv⟩ := ih _ _ _ h
        refine ⟨w % 65536 :: vs, v, ?_, ?_, hLast, hv⟩
        · simp [refreshPollTrace, hT, List.append_assoc]
        · intro u hu
          rcases List.mem_cons.mp hu with h1 | h1
          · exact h1 ▸ hc
          · exact hAll u h1
      · rw [pollModelCfgAux, if_neg hc] at h
        simp only [Prod.mk.injEq] at h
        refine ⟨[], w % 65536, ?_, by simp,
          Bool.not_eq_true _ ▸ hc, Nat.mod_lt _ (by norm_num)⟩
        simp [refreshPollTrace, h.2.1.symm]

theorem wrCount_append (a b : List Tx) :
    wrCount (a ++ b) = wrCount a + wrCount b := by
  induction a with
  | nil => simp [wrCount]
  | cons x r ih => cases x <;> simp [wrCount, ih] <;> omega

theorem writeVerifyAux_ok (addr val : Nat) :
    ∀ (fuel : Nat) (s : List Resp) (t : List Tx) (s' : List Resp) (t' : List Tx),
    writeVerifyAux addr val fuel s t = (s', t', .ok ()) →
    ∃ bads : List Nat, bads.length ≤ fuel ∧
      (∀ b ∈ bads, b < 65536 ∧ ¬ b = val) ∧
      t' = t ++ wvAttempts addr val bads ++
        [Tx.wr addr val, Tx.delay 1, Tx.rd addr val] := by
  intro fuel
  induction fuel with
  | zero =>
    intro s t s' t' h
    rw [writeVerifyAux] at h
    rcases hw : wrReg addr val s t with ⟨s1, t1, r1⟩
    rw [hw] at h
    cases r1 with
    | error e => simp at h
    | ok u =>
      dsimp only at h
      rcases hr : rdReg addr s1 (t1 ++ [Tx.delay 1]) with ⟨s2, t2, r2⟩
      rw [hr] at h
      cases r2 with
      | error e => simp at h
      | ok rv =>
        dsimp only at h
        by_cases hv : val = rv
        · rw [if_pos hv] at h
          simp only [Prod.mk.injEq] at h
          obtain ⟨hT, hrv⟩ := rdReg_ok hr
          refine ⟨[], by simp, by simp, ?_⟩
          rw [← h.2.1, hT, wrReg_ok hw, hv]
          simp [wvAttempts]
        · rw [if_neg hv] at h
          simp at h
  | succ f ih =>
    intro s t s' t' h
    rw [writeVerifyAux] at h
    rcases hw : wrReg addr val s t with ⟨s1, t1, r1⟩
    rw [hw] at h
    cases r1 with
    | error e => simp at h
    | ok u =>
      dsimp only at h
      rcases hr : rdReg addr s1 (t1 ++ [Tx.delay 1]) with ⟨s2, t2, r2⟩
      rw [hr] at h
      cases r2 with
      | error e => simp at h
      | ok rv =>
        dsimp only at h
        by_cases hv : val = rv
        · rw [if_pos hv] at h
          simp only [Prod.mk.injEq] at h
          obtain ⟨hT, hrv⟩ := rdReg_ok hr
          refine ⟨[], by simp, by simp, ?_⟩
          rw [← h.2.1, hT, wrReg_ok hw, hv]
          simp [wvAttempts]
        · rw [if_neg hv] at h
          obtain ⟨bads, hlen, hAll, hT⟩ := ih s2 t2 s' t' h
          obtain ⟨hT2, hrv⟩ := rdReg_ok hr
          refine ⟨rv :: bads, by simpa using hlen, ?_, ?_⟩
          · intro b hb
            rcases List.mem_cons.mp hb with h1 | h1
            · exact h1 ▸ ⟨hrv, fun he => hv he.symm⟩
            · exact hAll b h1
          · rw [hT, hT2, wrReg_ok hw]
            simp [wvAttempts, List.append_assoc]

theorem writeVerifyAux_consume (addr val : Nat) :
    ∀ (bads : List Nat) (fuel : Nat) (t : List Tx) (k : List Resp),
    bads.length ≤ fuel →
    (∀ b ∈ bads, b < 65536 ∧ ¬ b = val) →
    writeVerifyAux addr val fuel (wvScriptAttempts bads ++ k) t =
      writeVerifyAux addr val (fuel - bads.length) k
        (t ++ wvAttempts addr val bads) := by
  intro bads
  induction bads with
  | nil =>
    intro fuel t k hlen hAll
    simp [wvScriptAttempts, wvAttempts]
  | cons b bs ih =>
    intro fuel t k hlen hAll
    obtain ⟨hb, hbv⟩ := hAll b (List.mem_cons_self b bs)
    have hbody : wvScriptAttempts (b :: bs) ++ k =
        Resp.ok 0 :: Resp.ok b :: (wvScriptAttempts bs ++ k) := by
      simp [wvScriptAttempts]
    rw [hbody, writeVerifyAux]
    have hwr : wrReg addr val (Resp.ok 0 :: Resp.ok b :: (wvScriptAttempts bs ++ k)) t =
        (Resp.ok b :: (wvScriptAttempts bs ++ k), t ++ [Tx.wr addr val], .ok ()) := by
      simp [wrReg]
    rw [hwr]
    dsimp only
    have hrd : rdReg addr (Resp.ok b :: (wvScriptAttempts bs ++ k))
        ((t ++ [Tx.wr addr val]) ++ [Tx.delay 1]) =
        (wvScriptAttempts bs ++ k,
         ((t ++ [Tx.wr addr val]) ++ [Tx.delay 1]) ++ [Tx.rd addr b], .ok b) := by
      simp [rdReg, Nat.mod_eq_of_lt hb]
    rw [hrd]
    dsimp only
    rw [if_neg (fun he => hbv he.symm)]
    cases fuel with
    | zero => simp at hlen
    | succ f =>
      rw [← Nat.succ_eq_add_one]
      dsimp only
      have hlen' : bs.length ≤ f := by simpa using hlen
      have hAll' : ∀ x ∈ bs, x < 65536 ∧ ¬ x = val :=
        fun x hx => hAll x (List.mem_cons_of_mem b hx)
      rw [ih f _ k hlen' hAll']
      have hf : Nat.succ f - (b :: bs).length = f - bs.length := by
        simp [Nat.succ_sub_succ]
      rw [hf]
      congr 1
      simp [wvAttempts, List.append_assoc]

theorem writeVerifyAux_wrCount (addr val : Nat) :
    ∀ (fuel : Nat) (s : List Resp) (t : List Tx),
    wrCount (writeVerifyAux addr val fuel s t).2.1 ≤ wrCount t + fuel + 1 := by
  intro fuel
  induction fuel with
  | zero =>
    intro s t
    rw [writeVerifyAux]
    cases s with
    | nil => simp [wrReg]
    | cons r rest =>
      cases r with
      | err => simp [wrReg, wrCount_append, wrCount]
      | ok w =>
        cases rest with
        | nil => simp [wrReg, rdReg, wrCount_append, wrCount]
        | cons r2 rest2 =>
          cases r2 with
          | err => simp [wrReg, rdReg, wrCount_append, wrCount]
          | ok w2 =>
            by_cases hv : val = w2 % 65536
            · simp [wrReg, rdReg, hv, wrCount_append, wrCount]
            · simp [wrReg, rdReg, hv, wrCount_append, wrCount]
  | succ f ih =>
    intro s t
    rw [writeVerifyAux]
    cases s with
    | nil => simp [wrReg]; omega
    | cons r rest =>
      cases r with
      | err => simp [wrReg, wrCount_append, wrCount]
      | ok w =>
        cases rest with
        | nil => simp [wrReg, rdReg, wrCount_append, wrCount]
        | cons r2 rest2 =>
          cases r2 with
          | err => simp [wrReg, rdReg, wrCount_append, wrCount]
          | ok w2 =>
            by_cases hv : val = w2 % 65536
            · simp [wrReg, rdReg, hv, wrCount_append, wrCount]
            · simp only [wrReg, rdReg]
              rw [if_neg hv]
              refine le_trans (ih _ _) ?_
              simp [wrCount_append, wrCount]
              omega

theorem ezClearPor_ok {s : List Resp} {t : List Tx} {s' : List Resp} {t' : List Tx}
    (h : ezClearPor s t = (s', t', .ok ())) :
    ∃ st0 bads, st0 < 65536 ∧ bads.length ≤ 3 ∧
      (∀ b ∈ bads, b < 65536 ∧ ¬ b = st0 &&& 0xFFFD) ∧
      t' = t ++ [Tx.rd Register.STATUS st0, Tx.wr Register.STATUS (st0 &&& 0xFFFD)] ++
        wvAttempts Register.STATUS (st0 &&& 0xFFFD) bads ++
        [Tx.wr Register.STATUS (st0 &&& 0xFFFD), Tx.delay 1,
         Tx.rd Register.STATUS (st0 &&& 0xFFFD)] := by
  rw [ezClearPor] at h
  rcases hr : rdReg Register.STATUS s t with ⟨s1, t1, r1⟩
  rw [hr] at h
  cases r1 with
  | error e => simp at h
  | ok st0 =>
    dsimp only at h
    rcases hw : wrReg Register.STATUS (st0 &&& 0xFFFD) s1 t1 with ⟨s2, t2, r2⟩
    rw [hw] at h
    cases r2 with
    | error e => simp at h
    | ok u =>
      dsimp only at h
      rw [write_and_verify_register] at h
      obtain ⟨bads, hlen, hAll, hT⟩ := writeVerifyAux_ok _ _ _ _ _ _ _ h
      obtain ⟨hT1, hst0⟩ := rdReg_ok hr
      have hT2 := wrReg_ok hw
      refine ⟨st0, bads, hst0, hlen, hAll, ?_⟩
      rw [hT, hT2, hT1]
      simp [List.append_assoc]

theorem ezFinal_ok {s : List Resp} {t : List Tx} {s' : List Resp} {t' : List Tx}
    (h : ezFinal s t = (s', t', .ok ())) :
    ∃ rc soc tte, t' = t ++ [Tx.rd OutputRegister.REP_CAP rc,
      Tx.rd OutputRegister.REP_SOC soc, Tx.rd OutputRegister.TTE tte] := by
  rw [ezFinal] at h
  rcases h1 : rdReg OutputRegister.REP_CAP s t with ⟨s1, t1, r1⟩
  rw [h1] at h
  cases r1 with
  | error e => simp at h
  | ok rc =>
    dsimp only at h
    rcases h2 : rdReg OutputRegister.REP_SOC s1 t1 with ⟨s2, t2, r2⟩
    rw [h2] at h
    cases r2 with
    | error e => simp at h
    | ok soc =>
      dsimp only at h
      rcases h3 : rdReg OutputRegister.TTE s2 t2 with ⟨s3, t3, r3⟩
      rw [h3] at h
      cases r3 with
      | error e => simp at h
      | ok tte =>
        dsimp only at h
        simp only [Prod.mk.injEq] at h
        refine ⟨rc, soc, tte, ?_⟩
        rw [← h.2.1, (rdReg_ok h3).1, (rdReg_ok h2).1, (rdReg_ok h1).1]
        simp [List.append_assoc]

theorem ezPorBranch_ok {cfg : EzConfig} {s : List Resp} {t : List Tx}
    {s' : List Resp} {t' : List Tx}
    (h : ezPorBranch cfg s t = (s', t', .ok ())) :
    ∃ dnrs dnrLast hib mcs mcLast,
      t' = t ++ dnrPollTrace dnrs dnrLast ++ [Tx.rd Register.HIB_CFG hib] ++
        ezWrites cfg ++ refreshPollTrace mcs mcLast ++ [Tx.wr Register.HIB_CFG hib] ∧
      (∀ u ∈ dnrs, ¬ FStat.fromBitsTruncate u &&& FStat.DNR = 0) ∧
      FStat.fromBitsTruncate dnrLast &&& FStat.DNR = 0 ∧
      (∀ u ∈ mcs, (ModelCfg.fromWord u).refresh = true) ∧
      (ModelCfg.fromWord mcLast).refresh = false ∧ hib < 65536 := by
  rw [ezPorBranch] at h
  rcases h1 : pollFStatAux s t with ⟨s1, t1, r1⟩
  rw [h1] at h
  cases r1 with
  | error e => simp at h
  | ok u1 =>
    dsimp only at h
    rcases h2 : rdReg Register.HIB_CFG s1 t1 with ⟨s2, t2, r2⟩
    rw [h2] at h
    cases r2 with
    | error e => simp at h
    | ok hib =>
      dsimp only at h
      rcases h3 : wrSeq (ezParamList cfg) s2 t2 with ⟨s3, t3, r3⟩
      rw [h3] at h
      cases r3 with
      | error e => simp at h
      | ok u3 =>
        dsimp only at h
        rcases h4 : pollModelCfgAux s3 t3 with ⟨s4, t4, r4⟩
        rw [h4] at h
        cases r4 with
        | error e => simp at h
        | ok u4 =>
          dsimp only at h
          cases u1; cases u3; cases u4
          obtain ⟨dnrs, dnrLast, hP1, hP2, hP3, hP4⟩ := pollFStatAux_ok _ _ _ _ h1
          obtain ⟨hH, hhib⟩ := rdReg_ok h2
          have hW := wrSeq_ok _ _ _ _ _ h3
          obtain ⟨mcs, mcLast, hM1, hM2, hM3, hM4⟩ := pollModelCfgAux_ok _ _ _ _ h4
          have hR := wrReg_ok h
          refine ⟨dnrs, dnrLast, hib, mcs, mcLast, ?_, hP2, hP3, hM2, hM3, hhib⟩
          rw [hR, hM1, hW, hH, hP1, ezWrites]

/-- The transaction trace of a POR-set run of `ez_config`, as claimed:
one status read, the DNR poll, the HibCfg read, the seven configuration
writes in order, the ModelCFG.Refresh poll, the opaque HibCfg restore
(same word `hib` that was read), the Clear-POR step committing
`st0 &&& 0xFFFD`, and the final battery-charge-status reads. -/
def EzPorSetTraceSpec (cfg : EzConfig) (v : Nat) (t' : List Tx) : Prop :=
  ∃ dnrs dnrLast hib mcs mcLast st0 bads rc soc tte,
    t' = [Tx.rd Register.STATUS (v % 65536)] ++ dnrPollTrace dnrs dnrLast ++
      [Tx.rd Register.HIB_CFG hib] ++ ezWrites cfg ++
      refreshPollTrace mcs mcLast ++ [Tx.wr Register.HIB_CFG hib] ++
      [Tx.rd Register.STATUS st0, Tx.wr Register.STATUS (st0 &&& 0xFFFD)] ++
      wvAttempts Register.STATUS (st0 &&& 0xFFFD) bads ++
      [Tx.wr Register.STATUS (st0 &&& 0xFFFD), Tx.delay 1,
       Tx.rd Register.STATUS (st0 &&& 0xFFFD)] ++
      [Tx.rd OutputRegister.REP_CAP rc, Tx.rd OutputRegister.REP_SOC soc,
       Tx.rd OutputRegister.TTE tte] ∧
    (∀ u ∈ dnrs, ¬ FStat.fromBitsTruncate u &&& FStat.DNR = 0) ∧
    FStat.fromBitsTruncate dnrLast &&& FStat.DNR = 0 ∧
    (∀ u ∈ mcs, (ModelCfg.fromWord u).refresh = true) ∧
    (ModelCfg.fromWord mcLast).refresh = false ∧
    bads.length ≤ 3

/-- Shared shape lemma: a successful POR-set run of `ez_config` produces
exactly the trace of `EzPorSetTraceSpec`. -/
theorem ezRun_por_shape {cfg : EzConfig} {v : Nat}
    {rest s' : List Resp} {t' : List Tx}
    (hrun : ez_config cfg (Resp.ok v :: rest) [] = (s', t', .ok ()))
    (hpor : ¬ Status.fromBitsTruncate (v % 65536) &&& Status.POR = 0) :
    EzPorSetTraceSpec cfg v t' := by
  rw [ez_config] at hrun
  have hr : rdReg Register.STATUS (Resp.ok v :: rest) [] =
      (rest, [Tx.rd Register.STATUS (v % 65536)], .ok (v % 65536)) := by
    simp [rdReg]
  rw [hr] at hrun
  dsimp only at hrun
  rw [if_neg hpor] at hrun
  rcases hB : ezPorBranch cfg rest [Tx.rd Register.STATUS (v % 65536)]
    with ⟨s2, t2, r2⟩
  rw [hB] at hrun
  cases r2 with
  | error e => simp at hrun
  | ok u2 =>
    dsimp only at hrun
    rcases hC : ezClearPor s2 t2 with ⟨s3, t3, r3⟩
    rw [hC] at hrun
    cases r3 with
    | error e => simp at hrun
    | ok u3 =>
      dsimp only at hrun
      cases u2; cases u3
      obtain ⟨dnrs, dnrLast, hib, mcs, mcLast, hBT, hB2, hB3, hB4, hB5, hB6⟩ :=
        ezPorBranch_ok hB
      obtain ⟨st0, bads, hst0, hlen, hAll, hCT⟩ := ezClearPor_ok hC
      obtain ⟨rc, soc, tte, hFT⟩ := ezFinal_ok hrun
      refine ⟨dnrs, dnrLast, hib, mcs, mcLast, st0, bads, rc, soc, tte,
        ?_, hB2, hB3, hB4, hB5, hlen⟩
      rw [hFT, hCT, hBT]

/-- C1: in every successful run of `ez_config` whose first status read has
the POR bit set, the register transactions occur in exactly the order of
§4.3 states 3–5: FStat is polled until DNR clears, HibCfg is read, then in
strict order the soft-wakeup command 0x0090 to register 0x60, 0 to HibCfg,
the clear command 0 to register 0x60, design capacity to 0x18, termination
current to 0x1E, the VEmpty word to 0x3A and the ModelCfg constant to
0xDB are written, ModelCfg is polled until the refresh bit clears, and the
very word read from HibCfg is written back unchanged (all 16 bits,
reserved ones included). -/
theorem ez_config_por_set_trace (cfg : EzConfig) (v : Nat)
    (rest s' : List Resp) (t' : List Tx)
    (hrun : ez_config cfg (Resp.ok v :: rest) [] = (s', t', .ok ()))
    (hpor : ¬ Status.fromBitsTruncate (v % 65536) &&& Status.POR = 0) :
    EzPorSetTraceSpec cfg v t' :=
  ezRun_por_shape hrun hpor

/-- Configuration fixture used by concrete runs below (charge voltage
above 4275 mV, with the datasheet VEmpty word 0xA561). -/
def cfgW : EzConfig := ⟨4300, 2000, 250, ⟨0xA561⟩⟩

/-- A transport script driving a full POR-set run of `ez_config`. -/
def scriptRestW : List Resp :=
  [Resp.ok 1, Resp.ok 0, Resp.ok 0x870C,
   Resp.ok 0, Resp.ok 0, Resp.ok 0,
   Resp.ok 0, Resp.ok 0, Resp.ok 0, Resp.ok 0,
   Resp.ok 0x8400, Resp.ok 0x0400, Resp.ok 0,
   Resp.ok 0x8082, Resp.ok 0, Resp.ok 0, Resp.ok 0x8080,
   Resp.ok 100, Resp.ok 200, Resp.ok 300]

/-- The trace of that run. -/
def traceW : List Tx :=
  [Tx.rd 0 2, Tx.rd 61 1, Tx.delay 10, Tx.rd 61 0, Tx.rd 186 34572,
   Tx.wr 96 144, Tx.wr 186 0, Tx.wr 96 0, Tx.wr 24 2000, Tx.wr 30 250,
   Tx.wr 58 42337, Tx.wr 219 33792, Tx.rd 219 33792, Tx.delay 10,
   Tx.rd 219 1024, Tx.wr 186 34572, Tx.rd 0 32898, Tx.wr 0 32896,
   Tx.wr 0 32896, Tx.delay 1, Tx.rd 0 32896, Tx.rd 5 100, Tx.rd 6 200,
   Tx.rd 17 300]

theorem ez_config_por_set_trace_witness :
    ez_config cfgW (Resp.ok 2 :: scriptRestW) [] = ([], traceW, .ok ()) ∧
    ¬ Status.fromBitsTruncate (2 % 65536) &&& Status.POR = 0 ∧
    EzPorSetTraceSpec cfgW 2 traceW :=
  ⟨rfl, by decide,
   ez_config_por_set_trace cfgW 2 scriptRestW [] traceW rfl (by decide)⟩

theorem dnrPollTrace_countP (a : Nat) (vs : List Nat) (v : Nat) :
    (dnrPollTrace vs v).countP (writesTo a) = 0 := by
  induction vs with
  | nil => simp [dnrPollTrace, writesTo]
  | cons u us ih =>
    simpa [dnrPollTrace, writesTo, List.countP_cons] using ih

theorem dnrPollTrace_filter (a : Nat) (vs : List Nat) (v : Nat) :
    (dnrPollTrace vs v).filter (writesTo a) = [] := by
  induction vs with
  | nil => simp [dnrPollTrace, writesTo]
  | cons u us ih =>
    simpa [dnrPollTrace, writesTo, List.filter_cons] using ih

theorem refreshPollTrace_countP (a : Nat) (vs : List Nat) (v : Nat) :
    (refreshPollTrace vs v).countP (writesTo a) = 0 := by
  induction vs with
  | nil => simp [refreshPollTrace, writesTo]
  | cons u us ih =>
    simpa [refreshPollTrace, writesTo, List.countP_cons] using ih

theorem refreshPollTrace_filter (a : Nat) (vs : List Nat) (v : Nat) :
    (refreshPollTrace vs v).filter (writesTo a) = [] := by
  induction vs with
  | nil => simp [refreshPollTrace, writesTo]
  | cons u us ih =>
    simpa [refreshPollTrace, writesTo, List.filter_cons] using ih

theorem wvAttempts_mem {tx : Tx} {addr val : Nat} {bads : List Nat}
    (h : tx ∈ wvAttempts addr val bads) :
    tx = Tx.wr addr val ∨ tx = Tx.delay 1 ∨ ∃ b, tx = Tx.rd addr b := by
  induction bads with
  | nil => simp [wvAttempts] at h
  | cons b bs ih =>
    simp only [wvAttempts, List.flatMap_cons, List.append_assoc,
      List.cons_append, List.nil_append, List.mem_cons] at h
    rcases h with h | h | h | h
    · exact Or.inl h
    · exact Or.inr (Or.inl h)
    · exact Or.inr (Or.inr ⟨b, h⟩)
    · exact ih (by simpa [wvAttempts] using h)

theorem wvAttempts_countP {a addr : Nat} (h : ¬ addr = a) (val : Nat)
    (bads : List Nat) :
    (wvAttempts addr val bads).countP (writesTo a) = 0 := by
  induction bads with
  | nil => simp [wvAttempts, writesTo]
  | cons b bs ih =>
    have hb : (addr == a) = false := by
      exact beq_eq_false_iff_ne.mpr h
    simpa [wvAttempts, writesTo, List.countP_cons, hb] using ih

theorem wvAttempts_filter {a addr : Nat} (h : ¬ addr = a) (val : Nat)
    (bads : List Nat) :
    (wvAttempts addr val bads).filter (writesTo a) = [] := by
  induction bads with
  | nil => simp [wvAttempts, writesTo]
  | cons b bs ih =>
    have hb : (addr == a) = false := by
      exact beq_eq_false_iff_ne.mpr h
    simpa [wvAttempts, writesTo, List.filter_cons, hb] using ih

/-- The transaction trace of a POR-clear run of `ez_config`: the single
initial status read, then directly the Clear-POR step and the final
battery-charge-status reads; no write ever touches the design-capacity,
model-config, hibernate-config, IChgTerm, VEmpty or soft-wakeup
registers. -/
def EzPorClearTraceSpec (v : Nat) (t' : List Tx) : Prop :=
  (∃ st0 bads rc soc tte,
    t' = [Tx.rd Register.STATUS (v % 65536)] ++
      [Tx.rd Register.STATUS st0, Tx.wr Register.STATUS (st0 &&& 0xFFFD)] ++
      wvAttempts Register.STATUS (st0 &&& 0xFFFD) bads ++
      [Tx.wr Register.STATUS (st0 &&& 0xFFFD), Tx.delay 1,
       Tx.rd Register.STATUS (st0 &&& 0xFFFD)] ++
      [Tx.rd OutputRegister.REP_CAP rc, Tx.rd OutputRegister.REP_SOC soc,
       Tx.rd OutputRegister.TTE tte] ∧
    bads.length ≤ 3) ∧
  t'.countP (writesTo Register.DESIGN_CAP) = 0 ∧
  t'.countP (writesTo Register.MODEL_CFG) = 0 ∧
  t'.countP (writesTo Register.HIB_CFG) = 0 ∧
  t'.countP (writesTo Register.I_CHG_TERM) = 0 ∧
  t'.countP (writesTo Register.V_EMPTY) = 0 ∧
  t'.countP (writesTo Register.SOFT_WAKEUP) = 0

/-- C4: a successful run of `ez_config` whose first status read has POR
clear performs that one status read, skips states 1–2 entirely (zero
writes to the design-capacity, model-config, hibernate-config, IChgTerm,
VEmpty and soft-wakeup registers), and proceeds directly to the Clear-POR
step. -/
theorem ez_config_por_clear_trace (cfg : EzConfig) (v : Nat)
    (rest s' : List Resp) (t' : List Tx)
    (hrun : ez_config cfg (Resp.ok v :: rest) [] = (s', t', .ok ()))
    (hpor : Status.fromBitsTruncate (v % 65536) &&& Status.POR = 0) :
    EzPorClearTraceSpec v t' := by
  rw [ez_config] at hrun
  have hr : rdReg Register.STATUS (Resp.ok v :: rest) [] =
      (rest, [Tx.rd Register.STATUS (v % 65536)], .ok (v % 65536)) := by
    simp [rdReg]
  rw [hr] at hrun
  dsimp only at hrun
  rw [if_pos hpor] at hrun
  dsimp only at hrun
  rcases hC : ezClearPor rest [Tx.rd Register.STATUS (v % 65536)]
    with ⟨s3, t3, r3⟩
  rw [hC] at hrun
  cases r3 with
  | error e => simp at hrun
  | ok u3 =>
    dsimp only at hrun
    cases u3
    obtain ⟨st0, bads, hst0, hlen, hAll, hCT⟩ := ezClearPor_ok hC
    obtain ⟨rc, soc, tte, hFT⟩ := ezFinal_ok hrun
    have hT : t' = [Tx.rd Register.STATUS (v % 65536)] ++
        [Tx.rd Register.STATUS st0, Tx.wr Register.STATUS (st0 &&& 0xFFFD)] ++
        wvAttempts Register.STATUS (st0 &&& 0xFFFD) bads ++
        [Tx.wr Register.STATUS (st0 &&& 0xFFFD), Tx.delay 1,
         Tx.rd Register.STATUS (st0 &&& 0xFFFD)] ++
        [Tx.rd OutputRegister.REP_CAP rc, Tx.rd OutputRegister.REP_SOC soc,
         Tx.rd OutputRegister.TTE tte] := by
      rw [hFT, hCT]
    refine ⟨⟨st0, bads, rc, soc, tte, hT, hlen⟩, ?_, ?_, ?_, ?_, ?_, ?_⟩ <;>
      rw [hT] <;>
      simp [List.countP_append, List.countP_cons, writesTo,
        Register.DESIGN_CAP, Register.MODEL_CFG,
        Register.HIB_CFG, Register.I_CHG_TERM, Register.V_EMPTY,
        Register.SOFT_WAKEUP, Register.STATUS, OutputRegister.REP_CAP,
        OutputRegister.REP_SOC, OutputRegister.TTE] <;>
      (intro tx htx
       rcases wvAttempts_mem htx with h1 | h1 | ⟨b, h1⟩ <;> subst h1 <;> rfl)

/-- A transport script for a POR-clear run of `ez_config` (first status
word 0x8080, POR bit clear). -/
def scriptClearW : List Resp :=
  [Resp.ok 6, Resp.ok 0, Resp.ok 0, Resp.ok 4,
   Resp.ok 10, Resp.ok 20, Resp.ok 30]

/-- The trace of that POR-clear run. -/
def traceClearW : List Tx :=
  [Tx.rd 0 32896, Tx.rd 0 6, Tx.wr 0 4, Tx.wr 0 4, Tx.delay 1, Tx.rd 0 4,
   Tx.rd 5 10, Tx.rd 6 20, Tx.rd 17 30]

theorem ez_config_por_clear_trace_witness :
    ez_config cfgW (Resp.ok 0x8080 :: scriptClearW) [] =
      ([], traceClearW, .ok ()) ∧
    Status.fromBitsTruncate (0x8080 % 65536) &&& Status.POR = 0 ∧
    EzPorClearTraceSpec 0x8080 traceClearW :=
  ⟨rfl, by decide,
   ez_config_por_clear_trace cfgW 0x8080 scriptClearW [] traceClearW rfl
     (by decide)⟩

/-- C5: in a successful POR-set run of `ez_config`, exactly one word is
written to the model-config register 0xDB, and it is 0x8400 when
`charge_voltage_mv > 4275` and 0x8000 otherwise. -/
theorem ez_config_model_cfg_choice (cfg : EzConfig) (v : Nat)
    (rest s' : List Resp) (t' : List Tx)
    (hrun : ez_config cfg (Resp.ok v :: rest) [] = (s', t', .ok ()))
    (hpor : ¬ Status.fromBitsTruncate (v % 65536) &&& Status.POR = 0) :
    t'.filter (writesTo Register.MODEL_CFG) =
      [Tx.wr Register.MODEL_CFG
        (if 4275 < cfg.charge_voltage_mv then 0x8400 else 0x8000)] ∧
    (4275 < cfg.charge_voltage_mv →
      t'.filter (writesTo Register.MODEL_CFG) =
        [Tx.wr Register.MODEL_CFG 0x8400]) ∧
    (¬ 4275 < cfg.charge_voltage_mv →
      t'.filter (writesTo Register.MODEL_CFG) =
        [Tx.wr Register.MODEL_CFG 0x8000]) := by
  obtain ⟨dnrs, dnrLast, hib, mcs, mcLast, st0, bads, rc, soc, tte,
    hT, -, -, -, -, -⟩ := ezRun_por_shape hrun hpor
  have hmain : t'.filter (writesTo Register.MODEL_CFG) =
      [Tx.wr Register.MODEL_CFG
        (if 4275 < cfg.charge_voltage_mv then 0x8400 else 0x8000)] := by
    rw [hT]
    simp only [List.filter_append, dnrPollTrace_filter, refreshPollTrace_filter,
      wvAttempts_filter (show ¬ Register.STATUS = Register.MODEL_CFG by decide),
      ezWrites, ezParamList, List.map_cons, List.map_nil]
    simp [writesTo, List.filter_cons, Register.MODEL_CFG, Register.STATUS,
      Register.HIB_CFG, Register.SOFT_WAKEUP, Register.DESIGN_CAP,
      Register.I_CHG_TERM, Register.V_EMPTY, OutputRegister.REP_CAP,
      OutputRegister.REP_SOC, OutputRegister.TTE]
  refine ⟨hmain, ?_, ?_⟩
  · intro h
    rw [hmain, if_pos h]
  · intro h
    rw [hmain, if_neg h]

theorem ez_config_model_cfg_choice_witness :
    ez_config cfgW (Resp.ok 2 :: scriptRestW) [] = ([], traceW, .ok ()) ∧
    ¬ Status.fromBitsTruncate (2 % 65536) &&& Status.POR = 0 ∧
    (traceW.filter (writesTo Register.MODEL_CFG) =
      [Tx.wr Register.MODEL_CFG
        (if 4275 < cfgW.charge_voltage_mv then 0x8400 else 0x8000)] ∧
    (4275 < cfgW.charge_voltage_mv →
      traceW.filter (writesTo Register.MODEL_CFG) =
        [Tx.wr Register.MODEL_CFG 0x8400]) ∧
    (¬ 4275 < cfgW.charge_voltage_mv →
      traceW.filter (writesTo Register.MODEL_CFG) =
        [Tx.wr Register.MODEL_CFG 0x8000])) :=
  ⟨rfl, by decide,
   ez_config_model_cfg_choice cfgW 2 scriptRestW [] traceW rfl (by decide)⟩

/-- C3: in the Clear-POR step of `ez_config`, the word committed — by
the plain write and by the subsequent `write_and_verify_register` call
alike — is `s &&& 0xFFFD` for the raw status word `s` just read: bit 1
(POR) is cleared and every other bit of `s` is unchanged; in particular
0xFFFF yields 0xFFFD. -/
theorem ez_clear_por_mask_spec (s0 u : Nat) (rest : List Resp) (t : List Tx)
    (hs0 : s0 < 65536) :
    ezClearPor (Resp.ok s0 :: Resp.ok u :: rest) t =
      write_and_verify_register Register.STATUS (s0 &&& 0xFFFD) rest
        (t ++ [Tx.rd Register.STATUS s0,
               Tx.wr Register.STATUS (s0 &&& 0xFFFD)]) ∧
    Nat.testBit (s0 &&& 0xFFFD) 1 = false ∧
    (∀ i, ¬ i = 1 → Nat.testBit (s0 &&& 0xFFFD) i = Nat.testBit s0 i) ∧
    0xFFFF &&& 0xFFFD = 0xFFFD := by
  refine ⟨?_, ?_, ?_, by decide⟩
  · simp [ezClearPor, rdReg, wrReg, Nat.mod_eq_of_lt hs0,
      write_and_verify_register]
  · rw [Nat.testBit_land]
    simp [show Nat.testBit 0xFFFD 1 = false by decide]
  · intro i hi
    rw [Nat.testBit_land]
    by_cases h16 : i < 16
    · have hm : Nat.testBit 0xFFFD i = true := by
        interval_cases i <;> simp_all <;> decide
      simp [hm]
    · have hpow : (65536 : Nat) ≤ 2 ^ i := by
        calc (65536 : Nat) = 2 ^ 16 := by norm_num
          _ ≤ 2 ^ i := Nat.pow_le_pow_right (by norm_num) (by omega)
      have h1 : Nat.testBit s0 i = false :=
        Nat.testBit_eq_false_of_lt (lt_of_lt_of_le hs0 hpow)
      simp [h1]

theorem ez_clear_por_mask_spec_witness :
    (0xFFFF : Nat) < 65536 ∧
    (ezClearPor (Resp.ok 0xFFFF :: Resp.ok 0 :: []) [] =
      write_and_verify_register Register.STATUS (0xFFFF &&& 0xFFFD) []
        ([] ++ [Tx.rd Register.STATUS 0xFFFF,
                Tx.wr Register.STATUS (0xFFFF &&& 0xFFFD)]) ∧
     Nat.testBit (0xFFFF &&& 0xFFFD) 1 = false ∧
     (∀ i, ¬ i = 1 →
       Nat.testBit (0xFFFF &&& 0xFFFD) i = Nat.testBit 0xFFFF i) ∧
     0xFFFF &&& 0xFFFD = 0xFFFD) :=
  ⟨by decide, ez_clear_por_mask_spec 0xFFFF 0 [] [] (by decide)⟩

theorem writeVerifyAux_step_ok (addr val : Nat) (hval : val < 65536)
    (fuel : Nat) (extra : List Resp) (t : List Tx) :
    writeVerifyAux addr val fuel (Resp.ok 0 :: Resp.ok val :: extra) t =
      (extra, t ++ [Tx.wr addr val, Tx.delay 1, Tx.rd addr val], .ok ()) := by
  simp [writeVerifyAux, wrReg, rdReg, Nat.mod_eq_of_lt hval]

theorem writeVerifyAux_step_fail0 (addr val : Nat) {b4 : Nat}
    (hb : b4 < 65536) (hbv : ¬ b4 = val) (extra : List Resp) (t : List Tx) :
    writeVerifyAux addr val 0 (Resp.ok 0 :: Resp.ok b4 :: extra) t =
      (extra, t ++ [Tx.wr addr val, Tx.delay 1, Tx.rd addr b4],
       .error (.writeNotVerified addr val b4)) := by
  have hvb : ¬ val = b4 := fun he => hbv he.symm
  simp [writeVerifyAux, wrReg, rdReg, Nat.mod_eq_of_lt hb, hvb]

theorem writeVerifyAux_step_errW (addr val fuel : Nat) (extra : List Resp)
    (t : List Tx) :
    writeVerifyAux addr val fuel (Resp.err :: extra) t =
      (extra, t ++ [Tx.wrE addr val], .error .i2c) := by
  simp [writeVerifyAux, wrReg]

theorem writeVerifyAux_step_errR (addr val fuel : Nat) (extra : List Resp)
    (t : List Tx) :
    writeVerifyAux addr val fuel (Resp.ok 0 :: Resp.err :: extra) t =
      (extra, t ++ [Tx.wr addr val, Tx.delay 1, Tx.rdE addr],
       .error .i2c) := by
  simp [writeVerifyAux, wrReg, rdReg]

theorem wvAttempts_append (addr val : Nat) (a b : List Nat) :
    wvAttempts addr val (a ++ b) =
      wvAttempts addr val a ++ wvAttempts addr val b := by
  simp [wvAttempts]

theorem wvScriptAttempts_append (a b : List Nat) :
    wvScriptAttempts (a ++ b) = wvScriptAttempts a ++ wvScriptAttempts b := by
  simp [wvScriptAttempts]

/-- C2: behaviour of `write_and_verify_register`.  With `bads` the
read-back words of failed attempts (all mismatching `val`): (1) after at
most 3 mismatched attempts, a matching read-back makes it return `Ok`
right there, leaving the rest of the script untouched; (2) if all 4
read-backs mismatch it performs exactly 4 write attempts (1 initial + 3
retries, a 1 ms delay before each read-back) and fails with
`WriteNotVerified` carrying the register, the written word, and the last
word read; (3)/(4) a transport error on a write or on a read-back is
propagated immediately with no further attempt; (5) no script whatsoever
can make it issue more than 4 writes. -/
theorem write_and_verify_register_spec (addr val b4 : Nat) (t : List Tx)
    (bads : List Nat) (extra : List Resp)
    (hval : val < 65536)
    (hbads : ∀ b ∈ bads, b < 65536 ∧ ¬ b = val)
    (hb4 : b4 < 65536 ∧ ¬ b4 = val) :
    (bads.length ≤ 3 →
      write_and_verify_register addr val
        (wvScriptAttempts bads ++ [Resp.ok 0, Resp.ok val] ++ extra) t =
      (extra, t ++ wvAttempts addr val bads ++
        [Tx.wr addr val, Tx.delay 1, Tx.rd addr val], .ok ())) ∧
    (bads.length = 3 →
      write_and_verify_register addr val
        (wvScriptAttempts (bads ++ [b4]) ++ extra) t =
      (extra, t ++ wvAttempts addr val (bads ++ [b4]),
       .error (.writeNotVerified addr val b4))) ∧
    (bads.length ≤ 3 →
      write_and_verify_register addr val
        (wvScriptAttempts bads ++ Resp.err :: extra) t =
      (extra, t ++ wvAttempts addr val bads ++ [Tx.wrE addr val],
       .error .i2c)) ∧
    (bads.length ≤ 3 →
      write_and_verify_register addr val
        (wvScriptAttempts bads ++ Resp.ok 0 :: Resp.err :: extra) t =
      (extra, t ++ wvAttempts addr val bads ++
        [Tx.wr addr val, Tx.delay 1, Tx.rdE addr], .error .i2c)) ∧
    (∀ s : List Resp,
      wrCount (write_and_verify_register addr val s t).2.1 ≤ wrCount t + 4) := by
  refine ⟨?_, ?_, ?_, ?_, ?_⟩
  · intro hlen
    rw [write_and_verify_register, List.append_assoc,
      writeVerifyAux_consume addr val bads 3 t _ hlen hbads]
    simp only [List.cons_append, List.nil_append]
    rw [writeVerifyAux_step_ok addr val hval]
  · intro hlen
    rw [write_and_verify_register, wvScriptAttempts_append, List.append_assoc,
      writeVerifyAux_consume addr val bads 3 t _ (le_of_eq hlen) hbads,
      hlen]
    have : wvScriptAttempts [b4] ++ extra = Resp.ok 0 :: Resp.ok b4 :: extra := by
      simp [wvScriptAttempts]
    rw [this, writeVerifyAux_step_fail0 addr val hb4.1 hb4.2,
      wvAttempts_append]
    simp [wvAttempts, List.append_assoc]
  · intro hlen
    rw [write_and_verify_register,
      writeVerifyAux_consume addr val bads 3 t _ hlen hbads,
      writeVerifyAux_step_errW]
  · intro hlen
    rw [write_and_verify_register,
      writeVerifyAux_consume addr val bads 3 t _ hlen hbads,
      writeVerifyAux_step_errR]
  · intro s
    have := writeVerifyAux_wrCount addr val 3 s t
    rw [write_and_verify_register]
    omega

theorem write_and_verify_register_spec_witness :
    (0x8080 : Nat) < 65536 ∧
    (∀ b ∈ [1, 2, 3], b < 65536 ∧ ¬ b = 0x8080) ∧
    ((4 : Nat) < 65536 ∧ ¬ (4 : Nat) = 0x8080) ∧
    (([1, 2, 3].length ≤ 3 →
      write_and_verify_register 0 0x8080
        (wvScriptAttempts [1, 2, 3] ++ [Resp.ok 0, Resp.ok 0x8080] ++ []) [] =
      ([], [] ++ wvAttempts 0 0x8080 [1, 2, 3] ++
        [Tx.wr 0 0x8080, Tx.delay 1, Tx.rd 0 0x8080], .ok ())) ∧
    ([1, 2, 3].length = 3 →
      write_and_verify_register 0 0x8080
        (wvScriptAttempts ([1, 2, 3] ++ [4]) ++ []) [] =
      ([], [] ++ wvAttempts 0 0x8080 ([1, 2, 3] ++ [4]),
       .error (.writeNotVerified 0 0x8080 4))) ∧
    ([1, 2, 3].length ≤ 3 →
      write_and_verify_register 0 0x8080
        (wvScriptAttempts [1, 2, 3] ++ Resp.err :: []) [] =
      ([], [] ++ wvAttempts 0 0x8080 [1, 2, 3] ++ [Tx.wrE 0 0x8080],
       .error .i2c)) ∧
    ([1, 2, 3].length ≤ 3 →
      write_and_verify_register 0 0x8080
        (wvScriptAttempts [1, 2, 3] ++ Resp.ok 0 :: Resp.err :: []) [] =
      ([], [] ++ wvAttempts 0 0x8080 [1, 2, 3] ++
        [Tx.wr 0 0x8080, Tx.delay 1, Tx.rdE 0], .error .i2c)) ∧
    (∀ s : List Resp,
      wrCount (write_and_verify_register 0 0x8080 s []).2.1 ≤ wrCount [] + 4)) :=
  ⟨by decide, by decide, by decide,
   write_and_verify_register_spec 0 0x8080 4 [] [1, 2, 3] [] (by decide)
     (by decide) (by decide)⟩

theorem testBit_high_false {w i : Nat} (hw : w < 65536) (h16 : ¬ i < 16) :
    Nat.testBit w i = false := by
  refine Nat.testBit_eq_false_of_lt (lt_of_lt_of_le hw ?_)
  calc (65536 : Nat) = 2 ^ 16 := by norm_num
    _ ≤ 2 ^ i := Nat.pow_le_pow_right (by norm_num) (by omega)

/-- Keeping only the bits of a 16-bit mask `m` is the identity on `w`
exactly when the bits of `w` outside `m` (the mask `c` complementary to
`m` over 16 bits) are all clear. -/
theorem land_mask_eq_self_iff {w m c : Nat} (hw : w < 65536)
    (hmc : ∀ i, i < 16 → Nat.testBit m i = !Nat.testBit c i) :
    (w &&& m = w ↔ w &&& c = 0) := by
  constructor
  · intro h
    apply Nat.eq_of_testBit_eq
    intro i
    simp only [Nat.testBit_land, Nat.zero_testBit]
    by_cases h16 : i < 16
    · by_cases hc : Nat.testBit c i = true
      · have hmF : Nat.testBit m i = false := by rw [hmc i h16, hc]; rfl
        have hwF : Nat.testBit w i = false := by
          have h2 := congrArg (fun x => Nat.testBit x i) h
          simp only [Nat.testBit_land, hmF, Bool.and_false] at h2
          exact h2.symm
        simp [hwF]
      · rw [Bool.not_eq_true] at hc
        simp [hc]
    · simp [testBit_high_false hw h16]
  · intro h
    apply Nat.eq_of_testBit_eq
    intro i
    simp only [Nat.testBit_land]
    by_cases h16 : i < 16
    · by_cases hc : Nat.testBit c i = true
      · have hwF : Nat.testBit w i = false := by
          have h2 := congrArg (fun x => Nat.testBit x i) h
          simp only [Nat.testBit_land, hc, Bool.and_true,
            Nat.zero_testBit] at h2
          exact h2
        simp [hwF]
      · have hcF : Nat.testBit c i = false := by simpa using hc
        have hmT : Nat.testBit m i = true := by
          rw [hmc i h16, hcF]; rfl
        simp [hmT]
    · simp [testBit_high_false hw h16]

/-- C6 counterexample: decoding the raw word 0xFFFF into the `Status` (or
`FStat`) bitflags type and re-encoding does NOT reproduce 0xFFFF —
`from_bits_truncate` drops the undefined bit positions (0, 4, 5 for
Status), returning 0xFFCE (resp. 0x03C1). -/
theorem status_fstat_roundtrip_counterexample :
    Status.fromBitsTruncate 0xFFFF = 0xFFCE ∧
    ¬ Status.fromBitsTruncate 0xFFFF = 0xFFFF ∧
    FStat.fromBitsTruncate 0xFFFF = 0x03C1 ∧
    ¬ FStat.fromBitsTruncate 0xFFFF = 0xFFFF := by
  refine ⟨by decide, by decide, by decide, by decide⟩

/-- C6 (amended): decode/re-encode round-trips.  For every 16-bit word,
the `modular_bitfield` types (HibCfg, ModelCfg, VEmpty, StatusBitField,
LedCfg1/2/3) reproduce the word exactly, reserved bits included.  The
`defmt::bitflags` types Status and FStat truncate to their defined flag
bits (masks 0xFFCE and 0x03C1), so for them the round-trip reproduces `w`
exactly when the undefined bits of `w` are all zero. -/
theorem bitfield_roundtrip_spec (w : Nat) (hw : w < 65536) :
    (HibCfg.fromWord w).toWord = w ∧
    (ModelCfg.fromWord w).toWord = w ∧
    (VEmpty.fromWord w).toWord = w ∧
    (StatusBitField.fromWord w).toWord = w ∧
    (LedCfg1.fromWord w).toWord = w ∧
    (LedCfg2.fromWord w).toWord = w ∧
    (LedCfg3.fromWord w).toWord = w ∧
    Status.fromBitsTruncate w = w &&& 0xFFCE ∧
    FStat.fromBitsTruncate w = w &&& 0x03C1 ∧
    (Status.fromBitsTruncate w = w ↔ w &&& 0x0031 = 0) ∧
    (FStat.fromBitsTruncate w = w ↔ w &&& 0xFC3E = 0) := by
  have hmod := Nat.mod_eq_of_lt hw
  refine ⟨hmod, hmod, hmod, hmod, hmod, hmod, hmod, rfl, rfl, ?_, ?_⟩
  · exact land_mask_eq_self_iff hw (fun i hi => by interval_cases i <;> decide)
  · exact land_mask_eq_self_iff hw (fun i hi => by interval_cases i <;> decide)

theorem bitfield_roundtrip_spec_witness :
    (0x1517 : Nat) < 65536 ∧
    ((HibCfg.fromWord 0x1517).toWord = 0x1517 ∧
     (ModelCfg.fromWord 0x1517).toWord = 0x1517 ∧
     (VEmpty.fromWord 0x1517).toWord = 0x1517 ∧
     (StatusBitField.fromWord 0x1517).toWord = 0x1517 ∧
     (LedCfg1.fromWord 0x1517).toWord = 0x1517 ∧
     (LedCfg2.fromWord 0x1517).toWord = 0x1517 ∧
     (LedCfg3.fromWord 0x1517).toWord = 0x1517 ∧
     Status.fromBitsTruncate 0x1517 = 0x1517 &&& 0xFFCE ∧
     FStat.fromBitsTruncate 0x1517 = 0x1517 &&& 0x03C1 ∧
     (Status.fromBitsTruncate 0x1517 = 0x1517 ↔ 0x1517 &&& 0x0031 = 0) ∧
     (FStat.fromBitsTruncate 0x1517 = 0x1517 ↔ 0x1517 &&& 0xFC3E = 0)) :=
  ⟨by decide, bitfield_roundtrip_spec 0x1517 (by decide)⟩

/-- C10: `VEmpty::init(emv, rmv)` stores `ve = emv / 10` and
`vr = (rmv / 40) % 256` (the `as u8` cast wraps modulo 256), and only
returns (rather than panicking) when `emv / 10 < 512` and the wrapped
recovery quotient is `< 128`; the stored `vr` equals `rmv / 40` exactly
when `rmv / 40 < 256` — out-of-range arguments either panic or silently
store the wrapped value, never a clamped one. -/
theorem v_empty_init_spec (emv rmv : Nat)
    (h1 : emv / 10 < 512) (h2 : rmv / 40 % 256 < 128) :
    (VEmpty.init emv rmv = some ⟨128 * (emv / 10) + rmv / 40 % 256⟩ ∧
     ∀ x, VEmpty.init emv rmv = some x →
       x.ve = emv / 10 ∧ x.vr = rmv / 40 % 256 ∧
       (x.vr = rmv / 40 ↔ rmv / 40 < 256)) ∧
    (∀ a b : Nat, 512 ≤ a / 10 → VEmpty.init a b = none) ∧
    (∀ a b : Nat, 128 ≤ b / 40 % 256 → VEmpty.init a b = none) ∧
    (∀ (a b : Nat) (x : VEmpty), VEmpty.init a b = some x →
       a / 10 < 512 ∧ b / 40 % 256 < 128 ∧
       x.ve = a / 10 ∧ x.vr = b / 40 % 256) := by
  have key : ∀ a b : Nat, a / 10 < 512 → b / 40 % 256 < 128 →
      VEmpty.init a b = some ⟨128 * (a / 10) + b / 40 % 256⟩ := by
    intro a b ha hb
    simp [VEmpty.init, VEmpty.new, VEmpty.withVe, VEmpty.withVr, ha, hb,
      Nat.mul_div_cancel_left _ (show 0 < 128 by norm_num)]
  have getters : ∀ v u : Nat, v < 512 → u < 128 →
      (VEmpty.ve ⟨128 * v + u⟩ = v ∧ VEmpty.vr ⟨128 * v + u⟩ = u) := by
    intro v u hv hu
    constructor
    · simp only [VEmpty.ve, getBits, Nat.shiftRight_eq_div_pow]
      norm_num
      omega
    · simp only [VEmpty.vr, getBits, Nat.shiftRight_eq_div_pow]
      norm_num
      omega
  refine ⟨⟨key emv rmv h1 h2, ?_⟩, ?_, ?_, ?_⟩
  · intro x hx
    rw [key emv rmv h1 h2] at hx
    obtain ⟨hve, hvr⟩ := getters (emv / 10) (rmv / 40 % 256) h1 h2
    cases hx
    refine ⟨hve, hvr, ?_⟩
    rw [hvr]
    omega
  · intro a b ha
    simp [VEmpty.init, VEmpty.new, VEmpty.withVe, show ¬ a / 10 < 512 by omega]
  · intro a b hb
    by_cases ha : a / 10 < 512
    · simp [VEmpty.init, VEmpty.new, VEmpty.withVe, VEmpty.withVr, ha,
        show ¬ b / 40 % 256 < 128 by omega]
    · simp [VEmpty.init, VEmpty.new, VEmpty.withVe, ha]
  · intro a b x hx
    by_cases ha : a / 10 < 512
    · by_cases hb : b / 40 % 256 < 128
      · rw [key a b ha hb] at hx
        obtain ⟨hve, hvr⟩ := getters (a / 10) (b / 40 % 256) ha hb
        cases hx
        exact ⟨ha, hb, hve, hvr⟩
      · rw [show VEmpty.init a b = none by
          simp [VEmpty.init, VEmpty.new, VEmpty.withVe, VEmpty.withVr, ha, hb]]
          at hx
        cases hx
    · rw [show VEmpty.init a b = none by
        simp [VEmpty.init, VEmpty.new, VEmpty.withVe, ha]] at hx
      cases hx

theorem v_empty_init_spec_witness :
    (3300 : Nat) / 10 < 512 ∧ (3880 : Nat) / 40 % 256 < 128 ∧
    ((VEmpty.init 3300 3880 = some ⟨128 * (3300 / 10) + 3880 / 40 % 256⟩ ∧
     ∀ x, VEmpty.init 3300 3880 = some x →
       x.ve = 3300 / 10 ∧ x.vr = 3880 / 40 % 256 ∧
       (x.vr = 3880 / 40 ↔ 3880 / 40 < 256)) ∧
    (∀ a b : Nat, 512 ≤ a / 10 → VEmpty.init a b = none) ∧
    (∀ a b : Nat, 128 ≤ b / 40 % 256 → VEmpty.init a b = none) ∧
    (∀ (a b : Nat) (x : VEmpty), VEmpty.init a b = some x →
       a / 10 < 512 ∧ b / 40 % 256 < 128 ∧
       x.ve = a / 10 ∧ x.vr = b / 40 % 256)) :=
  ⟨by decide, by decide, v_empty_init_spec 3300 3880 (by decide) (by decide)⟩

/-!  The unit conversions of `src/max17263/registers.rs`
(`Max17263RegisterResolver`), with `f64` idealized as `ℚ`.  All scale
factors of the source are exact decimal rationals.  `libm::round` rounds
half away from zero (`roundAway`); the Rust `as u16` / `as i16` casts on
floats saturate to the target range (`satU16` / `satI16`), and
`as i16 as u16` reinterprets the two's-complement pattern (`i16ToU16`). -/

/-- `libm::round`: round half away from zero. -/
def roundAway (q : ℚ) : ℤ := if 0 ≤ q then ⌊q + 1 / 2⌋ else -⌊-q + 1 / 2⌋

/-- The Rust `as u16` cast of a (rounded) float: saturates to 0..=65535. -/
def satU16 (z : ℤ) : Nat :=
  if z < 0 then 0 else if 65535 < z then 65535 else z.toNat

/-- The Rust `as i16` cast of a (rounded) float: saturates to
-32768..=32767. -/
def satI16 (z : ℤ) : ℤ :=
  if z < -32768 then -32768 else if 32767 < z then 32767 else z

/-- The Rust `as u16` reinterpretation of an `i16` (two's complement). -/
def i16ToU16 (z : ℤ) : Nat := (z % 65536).toNat

/-- The Rust `as i16` reinterpretation of a `u16` (two's complement). -/
def u16ToI16 (r : Nat) : ℤ := if r < 32768 then (r : ℤ) else (r : ℤ) - 65536

/-- `src/max17263/registers.rs::Max17263RegisterResolver`: the resolver
is parameterized by the sense-resistor value in ohms. -/
structure Max17263RegisterResolver where
  r_sense : ℚ

namespace Max17263RegisterResolver

/-- LSb 5.0 µVh / RSENSE. -/
def register_to_capacity (rr : Max17263RegisterResolver) (r : Nat) : ℚ :=
  (r : ℚ) * (5 / 1000000) / rr.r_sense

/-- LSb 1/256 %. -/
def register_to_percentage (_ : Max17263RegisterResolver) (r : Nat) : ℚ :=
  (r : ℚ) / 256

/-- LSb 78.125 µV. -/
def register_to_voltage (_ : Max17263RegisterResolver) (r : Nat) : ℚ :=
  (r : ℚ) * (78125 / 1000000000)

/-- LSb 1.5625 µV / RSENSE, signed two's complement. -/
def register_to_current (rr : Max17263RegisterResolver) (r : Nat) : ℚ :=
  (u16ToI16 r : ℚ) * (15625 / 10000000000) / rr.r_sense

/-- LSb 1/256 °C, signed two's complement. -/
def register_to_temperature (_ : Max17263RegisterResolver) (r : Nat) : ℚ :=
  (u16ToI16 r : ℚ) / 256

/-- LSb 1/4096 Ω. -/
def register_to_resistance (_ : Max17263RegisterResolver) (r : Nat) : ℚ :=
  (r : ℚ) / 4096

/-- LSb 5.625 s. -/
def register_to_time (_ : Max17263RegisterResolver) (r : Nat) : ℚ :=
  (r : ℚ) * (5625 / 1000)

/-- `round((amp_hours * r_sense) / 5.0e-6) as u16`. -/
def capacity_to_register (rr : Max17263RegisterResolver) (x : ℚ) : Nat :=
  satU16 (roundAway (x * rr.r_sense / (5 / 1000000)))

/-- `round(percentage * 256.0) as u16`. -/
def percentage_to_register (_ : Max17263RegisterResolver) (x : ℚ) : Nat :=
  satU16 (roundAway (x * 256))

/-- `round(volts / 78.125e-6) as u16`. -/
def voltage_to_register (_ : Max17263RegisterResolver) (x : ℚ) : Nat :=
  satU16 (roundAway (x / (78125 / 1000000000)))

/-- `round((amps * r_sense) / 1.5625e-6) as i16 as u16`. -/
def current_to_register (rr : Max17263RegisterResolver) (x : ℚ) : Nat :=
  i16ToU16 (satI16 (roundAway (x * rr.r_sense / (15625 / 10000000000))))

/-- `round(celsius * 256.0) as i16 as u16`. -/
def temperature_to_register (_ : Max17263RegisterResolver) (x : ℚ) : Nat :=
  i16ToU16 (satI16 (roundAway (x * 256)))

/-- `round(ohms * 4096.0) as u16`. -/
def resistance_to_register (_ : Max17263RegisterResolver) (x : ℚ) : Nat :=
  satU16 (roundAway (x * 4096))

/-- `round(seconds / 5.625) as u16`. -/
def time_to_register (_ : Max17263RegisterResolver) (x : ℚ) : Nat :=
  satU16 (roundAway (x / (5625 / 1000)))

/-- One LSB of the capacity category, in Ah. -/
def capacityStep (rr : Max17263RegisterResolver) : ℚ := 5 / 1000000 / rr.r_sense

/-- One LSB of the current category, in A. -/
def currentStep (rr : Max17263RegisterResolver) : ℚ :=
  15625 / 10000000000 / rr.r_sense

end Max17263RegisterResolver

/-- One LSB of the percentage category. -/
def percentageStep : ℚ := 1 / 256

/-- One LSB of the voltage category, in V. -/
def voltageStep : ℚ := 78125 / 1000000000

/-- One LSB of the temperature category, in °C. -/
def temperatureStep : ℚ := 1 / 256

/-- One LSB of the resistance category, in Ω. -/
def resistanceStep : ℚ := 1 / 4096

/-- One LSB of the time category, in s. -/
def timeStep : ℚ := 5625 / 1000

/-- C9: the forward temperature conversion interprets the register word
as signed two's complement with an LSB of 1/256 °C: register 0x8000
gives exactly -128 °C, and register 0x7FFF gives 32767/256 ≈ 127.996 °C,
within 1e-3 of 127.996. -/
theorem temperature_twos_complement :
    (∀ rr : Max17263RegisterResolver,
      rr.register_to_temperature 0x8000 = -128) ∧
    (∀ rr : Max17263RegisterResolver,
      rr.register_to_temperature 0x7FFF = 32767 / 256) ∧
    (∀ rr : Max17263RegisterResolver,
      |rr.register_to_temperature 0x7FFF - 127996 / 1000| < 1 / 1000) := by
  refine ⟨?_, ?_, ?_⟩ <;> intro rr <;>
    simp [Max17263RegisterResolver.register_to_temperature, u16ToI16] <;>
    norm_num [abs_lt]

theorem roundAway_le {q : ℚ} {n : ℤ} (h : q ≤ n) : roundAway q ≤ n := by
  unfold roundAway
  split_ifs with h0
  · have : ⌊q + 1 / 2⌋ < n + 1 := by
      rw [Int.floor_lt]
      push_cast
      linarith
    omega
  · push_neg at h0
    by_cases hn : 0 ≤ n
    · have : (0 : ℤ) ≤ ⌊-q + 1 / 2⌋ := by
        rw [Int.le_floor]
        push_cast
        linarith
      omega
    · push_neg at hn
      have : (-n : ℤ) ≤ ⌊-q + 1 / 2⌋ := by
        rw [Int.le_floor]
        push_cast
        linarith
      omega

theorem le_roundAway {q : ℚ} {n : ℤ} (h : (n : ℚ) ≤ q) : n ≤ roundAway q := by
  unfold roundAway
  split_ifs with h0
  · rw [Int.le_floor]
    linarith
  · push_neg at h0
    have hn : n ≤ 0 := by
      by_contra hc
      push_neg at hc
      have : (1 : ℚ) ≤ (n : ℚ) := by exact_mod_cast hc
      linarith
    have : ⌊-q + 1 / 2⌋ < -n + 1 := by
      rw [Int.floor_lt]
      push_cast
      linarith
    omega

theorem abs_roundAway_sub (q : ℚ) : |(roundAway q : ℚ) - q| ≤ 1 / 2 := by
  unfold roundAway
  rw [abs_le]
  split_ifs with h0
  · have h1 : (⌊q + 1 / 2⌋ : ℚ) ≤ q + 1 / 2 := Int.floor_le _
    have h2 : q + 1 / 2 < ⌊q + 1 / 2⌋ + 1 := Int.lt_floor_add_one _
    refine ⟨by linarith, by linarith⟩
  · have h1 : (⌊-q + 1 / 2⌋ : ℚ) ≤ -q + 1 / 2 := Int.floor_le _
    have h2 : -q + 1 / 2 < ⌊-q + 1 / 2⌋ + 1 := Int.lt_floor_add_one _
    refine ⟨by push_cast; linarith, by push_cast; linarith⟩

theorem satU16_le (z : ℤ) : satU16 z ≤ 65535 := by
  unfold satU16
  split_ifs <;> omega

theorem satU16_min {z : ℤ} (h : z ≤ 0) : satU16 z = 0 := by
  unfold satU16
  split_ifs <;> omega

theorem satU16_max {z : ℤ} (h : 65535 ≤ z) : satU16 z = 65535 := by
  unfold satU16
  split_ifs <;> omega

theorem satU16_id {z : ℤ} (h0 : 0 ≤ z) (h1 : z ≤ 65535) :
    ((satU16 z : ℕ) : ℤ) = z := by
  unfold satU16
  split_ifs <;> omega

theorem satI16_id {z : ℤ} (h0 : -32768 ≤ z) (h1 : z ≤ 32767) :
    satI16 z = z := by
  unfold satI16
  split_ifs <;> omega

theorem satI16_min {z : ℤ} (h : z ≤ -32768) : satI16 z = -32768 := by
  unfold satI16
  split_ifs <;> omega

theorem satI16_max {z : ℤ} (h : 32767 ≤ z) : satI16 z = 32767 := by
  unfold satI16
  split_ifs <;> omega

theorem satI16_bounds (z : ℤ) : -32768 ≤ satI16 z ∧ satI16 z ≤ 32767 := by
  unfold satI16
  split_ifs <;> omega

theorem i16ToU16_le (z : ℤ) : i16ToU16 z ≤ 65535 := by
  unfold i16ToU16
  have h1 : z % 65536 < 65536 := Int.emod_lt_of_pos z (by norm_num)
  omega

theorem u16ToI16_i16ToU16 {z : ℤ} (h0 : -32768 ≤ z) (h1 : z ≤ 32767) :
    u16ToI16 (i16ToU16 z) = z := by
  unfold u16ToI16 i16ToU16
  have h2 : 0 ≤ z % 65536 := Int.emod_nonneg z (by norm_num)
  have h3 : z % 65536 < 65536 := Int.emod_lt_of_pos z (by norm_num)
  have h4 : z % 65536 = z ∨ z % 65536 = z + 65536 := by omega
  split_ifs with hc <;> omega

theorem satU16_roundAway_hi {q : ℚ} (h : (65535 : ℚ) ≤ q) :
    satU16 (roundAway q) = 65535 :=
  satU16_max (le_roundAway (by exact_mod_cast h))

theorem satU16_roundAway_lo {q : ℚ} (h : q ≤ 0) :
    satU16 (roundAway q) = 0 :=
  satU16_min (roundAway_le (by exact_mod_cast h))

theorem satI16_roundAway_hi {q : ℚ} (h : (32767 : ℚ) ≤ q) :
    satI16 (roundAway q) = 32767 :=
  satI16_max (le_roundAway (by exact_mod_cast h))

theorem satI16_roundAway_lo {q : ℚ} (h : q ≤ -32768) :
    satI16 (roundAway q) = -32768 :=
  satI16_min (roundAway_le (by exact_mod_cast h))

/-- The saturation behaviour claimed for the physical-to-register
conversions: results never exceed 65535, inputs at or above the top of
the representable range map to the top code (65535, or 32767 for the
signed categories), inputs at or below the bottom map to the bottom code
(0, or the two's-complement pattern 32768 = 0x8000), never a wrapped
value. -/
def ClampSpec (rr : Max17263RegisterResolver) : Prop :=
    (∀ x : ℚ, rr.capacity_to_register x ≤ 65535) ∧
    (∀ x : ℚ, 65535 * rr.capacityStep ≤ x →
      rr.capacity_to_register x = 65535) ∧
    (∀ x : ℚ, x ≤ 0 → rr.capacity_to_register x = 0) ∧
    (∀ x : ℚ, rr.percentage_to_register x ≤ 65535) ∧
    (∀ x : ℚ, 65535 * percentageStep ≤ x →
      rr.percentage_to_register x = 65535) ∧
    (∀ x : ℚ, x ≤ 0 → rr.percentage_to_register x = 0) ∧
    (∀ x : ℚ, rr.voltage_to_register x ≤ 65535) ∧
    (∀ x : ℚ, 65535 * voltageStep ≤ x → rr.voltage_to_register x = 65535) ∧
    (∀ x : ℚ, x ≤ 0 → rr.voltage_to_register x = 0) ∧
    (∀ x : ℚ, rr.resistance_to_register x ≤ 65535) ∧
    (∀ x : ℚ, 65535 * resistanceStep ≤ x →
      rr.resistance_to_register x = 65535) ∧
    (∀ x : ℚ, x ≤ 0 → rr.resistance_to_register x = 0) ∧
    (∀ x : ℚ, rr.time_to_register x ≤ 65535) ∧
    (∀ x : ℚ, 65535 * timeStep ≤ x → rr.time_to_register x = 65535) ∧
    (∀ x : ℚ, x ≤ 0 → rr.time_to_register x = 0) ∧
    (∀ x : ℚ, rr.current_to_register x ≤ 65535) ∧
    (∀ x : ℚ, 32767 * rr.currentStep ≤ x →
      rr.current_to_register x = 32767) ∧
    (∀ x : ℚ, x ≤ -32768 * rr.currentStep →
      rr.current_to_register x = 32768) ∧
    (∀ x : ℚ, rr.temperature_to_register x ≤ 65535) ∧
    (∀ x : ℚ, 32767 * temperatureStep ≤ x →
      rr.temperature_to_register x = 32767) ∧
    (∀ x : ℚ, x ≤ -32768 * temperatureStep →
      rr.temperature_to_register x = 32768)

/-- C7: every physical-to-register conversion of the resolver rounds the
scaled input and clamps an out-of-range result to the nearest
representable extreme of the 16-bit target range (unsigned 0..=65535, or
signed -32768..=32767 reinterpreted as u16 for current and temperature);
it never wraps modularly. -/
theorem conversions_clamp_spec (rr : Max17263RegisterResolver)
    (hrs : 0 < rr.r_sense) : ClampSpec rr := by
  have hrs' : rr.r_sense ≠ 0 := ne_of_gt hrs
  rw [ClampSpec]
  refine ⟨?_, ?_, ?_, ?_, ?_, ?_, ?_, ?_, ?_, ?_, ?_, ?_, ?_, ?_, ?_, ?_,
    ?_, ?_, ?_, ?_, ?_⟩
  · intro x
    exact satU16_le _
  · intro x h
    apply satU16_roundAway_hi
    rw [Max17263RegisterResolver.capacityStep] at h
    rw [le_div_iff₀ (by norm_num : (0 : ℚ) < 5 / 1000000)]
    have h3 := mul_le_mul_of_nonneg_right h hrs.le
    calc (65535 : ℚ) * (5 / 1000000)
        = 65535 * (5 / 1000000 / rr.r_sense) * rr.r_sense := by field_simp; ring
      _ ≤ x * rr.r_sense := h3
  · intro x h
    apply satU16_roundAway_lo
    exact div_nonpos_iff.mpr (Or.inr ⟨by nlinarith, by norm_num⟩)
  · intro x
    exact satU16_le _
  · intro x h
    apply satU16_roundAway_hi
    rw [percentageStep] at h
    linarith
  · intro x h
    apply satU16_roundAway_lo
    linarith
  · intro x
    exact satU16_le _
  · intro x h
    apply satU16_roundAway_hi
    rw [voltageStep] at h
    rw [le_div_iff₀ (by norm_num : (0 : ℚ) < 78125 / 1000000000)]
    linarith
  · intro x h
    apply satU16_roundAway_lo
    exact div_nonpos_iff.mpr (Or.inr ⟨h, by norm_num⟩)
  · intro x
    exact satU16_le _
  · intro x h
    apply satU16_roundAway_hi
    rw [resistanceStep] at h
    linarith
  · intro x h
    apply satU16_roundAway_lo
    linarith
  · intro x
    exact satU16_le _
  · intro x h
    apply satU16_roundAway_hi
    rw [timeStep] at h
    rw [le_div_iff₀ (by norm_num : (0 : ℚ) < 5625 / 1000)]
    linarith
  · intro x h
    apply satU16_roundAway_lo
    exact div_nonpos_iff.mpr (Or.inr ⟨h, by norm_num⟩)
  · intro x
    exact i16ToU16_le _
  · intro x h
    rw [Max17263RegisterResolver.current_to_register, satI16_roundAway_hi,
      show i16ToU16 32767 = 32767 by decide]
    rw [Max17263RegisterResolver.currentStep] at h
    rw [le_div_iff₀ (by norm_num : (0 : ℚ) < 15625 / 10000000000)]
    have h3 := mul_le_mul_of_nonneg_right h hrs.le
    calc (32767 : ℚ) * (15625 / 10000000000)
        = 32767 * (15625 / 10000000000 / rr.r_sense) * rr.r_sense := by
          field_simp
          ring
      _ ≤ x * rr.r_sense := h3
  · intro x h
    rw [Max17263RegisterResolver.current_to_register, satI16_roundAway_lo,
      show i16ToU16 (-32768) = 32768 by decide]
    rw [Max17263RegisterResolver.currentStep] at h
    rw [div_le_iff₀ (by norm_num : (0 : ℚ) < 15625 / 10000000000)]
    have h3 := mul_le_mul_of_nonneg_right h hrs.le
    calc x * rr.r_sense
        ≤ -32768 * (15625 / 10000000000 / rr.r_sense) * rr.r_sense := h3
      _ = -32768 * (15625 / 10000000000) := by field_simp; ring
  · intro x
    exact i16ToU16_le _
  · intro x h
    rw [Max17263RegisterResolver.temperature_to_register, satI16_roundAway_hi,
      show i16ToU16 32767 = 32767 by decide]
    rw [temperatureStep] at h
    linarith
  · intro x h
    rw [Max17263RegisterResolver.temperature_to_register, satI16_roundAway_lo,
      show i16ToU16 (-32768) = 32768 by decide]
    rw [temperatureStep] at h
    linarith

theorem conversions_clamp_spec_witness :
    (0 : ℚ) < (Max17263RegisterResolver.mk (1 / 100)).r_sense ∧
    ClampSpec (Max17263RegisterResolver.mk (1 / 100)) :=
  ⟨by norm_num, conversions_clamp_spec ⟨1 / 100⟩ (by norm_num)⟩

theorem unsigned_roundtrip_bound (c : ℚ) (hc : 0 < c) (x : ℚ)
    (h0 : 0 ≤ x) (h1 : x ≤ 65535 * c) :
    |((satU16 (roundAway (x / c)) : ℕ) : ℚ) * c - x| ≤ c := by
  have hq0 : 0 ≤ x / c := div_nonneg h0 hc.le
  have hq1 : x / c ≤ 65535 := by
    rw [div_le_iff₀ hc]; linarith
  have hr0 : (0 : ℤ) ≤ roundAway (x / c) := le_roundAway (by exact_mod_cast hq0)
  have hr1 : roundAway (x / c) ≤ 65535 := roundAway_le (by exact_mod_cast hq1)
  have hsat : ((satU16 (roundAway (x / c)) : ℕ) : ℚ) =
      ((roundAway (x / c) : ℤ) : ℚ) := by
    exact_mod_cast satU16_id hr0 hr1
  rw [hsat]
  have hx : x / c * c = x := div_mul_cancel₀ x (ne_of_gt hc)
  have habs := abs_roundAway_sub (x / c)
  calc |((roundAway (x / c) : ℤ) : ℚ) * c - x|
      = |((roundAway (x / c) : ℤ) : ℚ) - x / c| * |c| := by
        rw [← abs_mul, sub_mul, hx]
    _ ≤ 1 / 2 * c := by
        rw [abs_of_pos hc]
        nlinarith [habs]
    _ ≤ c := by linarith

theorem signed_roundtrip_bound (c : ℚ) (hc : 0 < c) (x : ℚ)
    (h0 : -32768 * c ≤ x) (h1 : x ≤ 32767 * c) :
    |((u16ToI16 (i16ToU16 (satI16 (roundAway (x / c)))) : ℤ) : ℚ) * c - x|
      ≤ c := by
  have hq0 : -32768 ≤ x / c := by
    rw [le_div_iff₀ hc]; linarith
  have hq1 : x / c ≤ 32767 := by
    rw [div_le_iff₀ hc]; linarith
  have hr0 : (-32768 : ℤ) ≤ roundAway (x / c) :=
    le_roundAway (by exact_mod_cast hq0)
  have hr1 : roundAway (x / c) ≤ 32767 := roundAway_le (by exact_mod_cast hq1)
  rw [satI16_id hr0 hr1, u16ToI16_i16ToU16 hr0 hr1]
  have hx : x / c * c = x := div_mul_cancel₀ x (ne_of_gt hc)
  have habs := abs_roundAway_sub (x / c)
  calc |((roundAway (x / c) : ℤ) : ℚ) * c - x|
      = |((roundAway (x / c) : ℤ) : ℚ) - x / c| * |c| := by
        rw [← abs_mul, sub_mul, hx]
    _ ≤ 1 / 2 * c := by
        rw [abs_of_pos hc]
        nlinarith [habs]
    _ ≤ c := by linarith

/-- The round-trip property claimed for the conversions: for every
physical value in the representable range of a category (extremes and
zero included), converting to a register word and back reproduces the
value to within one LSB step of that category, negative values of the
signed categories included. -/
def RoundTripSpec (rr : Max17263RegisterResolver) : Prop :=
  (∀ x : ℚ, 0 ≤ x → x ≤ 65535 * rr.capacityStep →
    |rr.register_to_capacity (rr.capacity_to_register x) - x| ≤
      rr.capacityStep) ∧
  (∀ x : ℚ, 0 ≤ x → x ≤ 65535 * percentageStep →
    |rr.register_to_percentage (rr.percentage_to_register x) - x| ≤
      percentageStep) ∧
  (∀ x : ℚ, 0 ≤ x → x ≤ 65535 * voltageStep →
    |rr.register_to_voltage (rr.voltage_to_register x) - x| ≤ voltageStep) ∧
  (∀ x : ℚ, 0 ≤ x → x ≤ 65535 * resistanceStep →
    |rr.register_to_resistance (rr.resistance_to_register x) - x| ≤
      resistanceStep) ∧
  (∀ x : ℚ, 0 ≤ x → x ≤ 65535 * timeStep →
    |rr.register_to_time (rr.time_to_register x) - x| ≤ timeStep) ∧
  (∀ x : ℚ, -32768 * rr.currentStep ≤ x → x ≤ 32767 * rr.currentStep →
    |rr.register_to_current (rr.current_to_register x) - x| ≤
      rr.currentStep) ∧
  (∀ x : ℚ, -32768 * temperatureStep ≤ x → x ≤ 32767 * temperatureStep →
    |rr.register_to_temperature (rr.temperature_to_register x) - x| ≤
      temperatureStep)

/-- C8: `forward(inverse(x))` reproduces `x` to within one LSB step of
the category, for every `x` in the representable range of each of the
seven quantity categories; the signed categories reproduce negative
values through the two's-complement encoding. -/
theorem conversions_roundtrip_spec (rr : Max17263RegisterResolver)
    (hrs : 0 < rr.r_sense) : RoundTripSpec rr := by
  have hrs' : rr.r_sense ≠ 0 := ne_of_gt hrs
  rw [RoundTripSpec]
  refine ⟨?_, ?_, ?_, ?_, ?_, ?_, ?_⟩
  · intro x h0 h1
    rw [Max17263RegisterResolver.capacityStep] at h1 ⊢
    have hc : (0 : ℚ) < 5 / 1000000 / rr.r_sense := by positivity
    have e1 : x * rr.r_sense / (5 / 1000000) =
        x / (5 / 1000000 / rr.r_sense) :=
      (div_div_eq_mul_div x (5 / 1000000) rr.r_sense).symm
    rw [Max17263RegisterResolver.register_to_capacity,
      Max17263RegisterResolver.capacity_to_register, e1, mul_div_assoc]
    exact unsigned_roundtrip_bound _ hc x h0 h1
  · intro x h0 h1
    rw [percentageStep] at h1 ⊢
    have e1 : (x * 256 : ℚ) = x / (1 / 256) := by
      rw [one_div, div_inv_eq_mul]
    have e2 : ∀ a : ℚ, a / 256 = a * (1 / 256) := fun a => by ring
    rw [Max17263RegisterResolver.register_to_percentage,
      Max17263RegisterResolver.percentage_to_register, e1, e2]
    exact unsigned_roundtrip_bound _ (by norm_num) x h0 h1
  · intro x h0 h1
    rw [voltageStep] at h1 ⊢
    rw [Max17263RegisterResolver.register_to_voltage,
      Max17263RegisterResolver.voltage_to_register]
    exact unsigned_roundtrip_bound _ (by norm_num) x h0 h1
  · intro x h0 h1
    rw [resistanceStep] at h1 ⊢
    have e1 : (x * 4096 : ℚ) = x / (1 / 4096) := by
      rw [one_div, div_inv_eq_mul]
    have e2 : ∀ a : ℚ, a / 4096 = a * (1 / 4096) := fun a => by ring
    rw [Max17263RegisterResolver.register_to_resistance,
      Max17263RegisterResolver.resistance_to_register, e1, e2]
    exact unsigned_roundtrip_bound _ (by norm_num) x h0 h1
  · intro x h0 h1
    rw [timeStep] at h1 ⊢
    rw [Max17263RegisterResolver.register_to_time,
      Max17263RegisterResolver.time_to_register]
    exact unsigned_roundtrip_bound _ (by norm_num) x h0 h1
  · intro x h0 h1
    rw [Max17263RegisterResolver.currentStep] at h0 h1 ⊢
    have hc : (0 : ℚ) < 15625 / 10000000000 / rr.r_sense := by positivity
    have e1 : x * rr.r_sense / (15625 / 10000000000) =
        x / (15625 / 10000000000 / rr.r_sense) :=
      (div_div_eq_mul_div x (15625 / 10000000000) rr.r_sense).symm
    rw [Max17263RegisterResolver.register_to_current,
      Max17263RegisterResolver.current_to_register, e1, mul_div_assoc]
    exact signed_roundtrip_bound _ hc x h0 h1
  · intro x h0 h1
    rw [temperatureStep] at h0 h1 ⊢
    have e1 : (x * 256 : ℚ) = x / (1 / 256) := by
      rw [one_div, div_inv_eq_mul]
    have e2 : ∀ a : ℚ, a / 256 = a * (1 / 256) := fun a => by ring
    rw [Max17263RegisterResolver.register_to_temperature,
      Max17263RegisterResolver.temperature_to_register, e1, e2]
    exact signed_roundtrip_bound _ (by norm_num) x h0 h1

theorem conversions_roundtrip_spec_witness :
    (0 : ℚ) < (Max17263RegisterResolver.mk (1 / 100)).r_sense ∧
    RoundTripSpec (Max17263RegisterResolver.mk (1 / 100)) :=
  ⟨by norm_num, conversions_roundtrip_spec ⟨1 / 100⟩ (by norm_num)⟩

theorem temperature_twos_complement_witness :
    (Max17263RegisterResolver.mk (1 / 100)).register_to_temperature 0x8000
      = -128 ∧
    (Max17263RegisterResolver.mk (1 / 100)).register_to_temperature 0x7FFF
      = 32767 / 256 ∧
    |(Max17263RegisterResolver.mk (1 / 100)).register_to_temperature 0x7FFF
      - 127996 / 1000| < 1 / 1000 :=
  ⟨temperature_twos_complement.1 ⟨1 / 100⟩,
   temperature_twos_complement.2.1 ⟨1 / 100⟩,
   temperature_twos_complement.2.2 ⟨1 / 100⟩⟩
